import Mathlib

/-!
Shallow embedding of the COVID macrotable ETL pipeline (src/etl.py).

Modelling conventions:
* calendar dates and identifiers (location keys, country names/codes) are
  naturals; ISO date strings are totally ordered exactly like their day
  numbers, so `Nat` order is a faithful model of the string/datetime order
  used by the source;
* numeric cells are rationals (`ℚ`); a missing value (pandas `NaN`) is
  `none : Option ℚ`;
* a DataFrame is modelled row-wise as a `List` of structures for the
  row-level stages, and column-wise as a `List (String × List (Option ℚ))`
  for the two schema-level stages of `combine_data` (the 60 % completeness
  pruning and the fixed column drop);
* pandas left merges are modelled literally: every left row is kept, each
  matching right row produces one output row, and a left row with no match
  produces a single row whose right-hand columns are missing.
-/

namespace CovidEtl

/-- Row of `demographics.csv`: a location key and the twelve population
columns (any of which may be missing). -/
structure DemoRow where
  location_key : Nat
  population : Option ℚ
  population_male : Option ℚ
  population_female : Option ℚ
  population_age_00_09 : Option ℚ
  population_age_10_19 : Option ℚ
  population_age_20_29 : Option ℚ
  population_age_30_39 : Option ℚ
  population_age_40_49 : Option ℚ
  population_age_50_59 : Option ℚ
  population_age_60_69 : Option ℚ
  population_age_70_79 : Option ℚ
  population_age_80_and_older : Option ℚ
deriving DecidableEq

/-- Row of `epidemiology.csv`: (location, date) with the two flow metrics. -/
structure EpiRow where
  location_key : Nat
  date : Nat
  new_confirmed : Option ℚ
  new_deceased : Option ℚ
deriving DecidableEq

/-- Row of `health.csv` (its payload columns are not tracked: none of them
survives into the row-level claims; the row only matters for the join
multiplicity of `combine_data`). -/
structure HealthRow where
  location_key : Nat
deriving DecidableEq

/-- Row of `hospitalizations.csv` (payload columns untracked; joined on
(location, date)). -/
structure HospRow where
  location_key : Nat
  date : Nat
deriving DecidableEq

/-- Row of `index.csv`: the columns of it that feed the pipeline logic are
`country_code` and `country_name`. -/
structure IndexRow where
  location_key : Nat
  country_code : Option Nat
  country_name : Option Nat
deriving DecidableEq

/-- Row of `vaccinations.csv` (payload columns untracked; joined on
(location, date)). -/
structure VaccRow where
  location_key : Nat
  date : Nat
deriving DecidableEq

/-- Row of the combined macrotable built by `combine_data`.  Fields that a
left join may leave unmatched, and numeric cells, are `Option`s.  The two
cumulative columns start out absent and are written by the grouped-cumsum
stage. -/
structure MRow where
  location_key : Nat
  date : Option Nat := none
  new_confirmed : Option ℚ := none
  new_deceased : Option ℚ := none
  population : Option ℚ := none
  population_male : Option ℚ := none
  population_female : Option ℚ := none
  population_age_00_09 : Option ℚ := none
  population_age_10_19 : Option ℚ := none
  population_age_20_29 : Option ℚ := none
  population_age_30_39 : Option ℚ := none
  population_age_40_49 : Option ℚ := none
  population_age_50_59 : Option ℚ := none
  population_age_60_69 : Option ℚ := none
  population_age_70_79 : Option ℚ := none
  population_age_80_and_older : Option ℚ := none
  country_code : Option Nat := none
  country_name : Option Nat := none
  cumulative_confirmed : Option ℚ := none
  cumulative_deceased : Option ℚ := none
deriving DecidableEq

/-- Copy the population columns of a demographics row into a fresh
macrotable row (the first merge of `combine_data`). -/
def rowOfDemo (d : DemoRow) : MRow :=
  { location_key := d.location_key
    population := d.population
    population_male := d.population_male
    population_female := d.population_female
    population_age_00_09 := d.population_age_00_09
    population_age_10_19 := d.population_age_10_19
    population_age_20_29 := d.population_age_20_29
    population_age_30_39 := d.population_age_30_39
    population_age_40_49 := d.population_age_40_49
    population_age_50_59 := d.population_age_50_59
    population_age_60_69 := d.population_age_60_69
    population_age_70_79 := d.population_age_70_79
    population_age_80_and_older := d.population_age_80_and_older }

/-- Left merge of demographics with epidemiology on `location_key`
(etl.py line 50). -/
def mergeDemoEpi (demographics_data : List DemoRow) (epidemiology_data : List EpiRow) :
    List MRow :=
  demographics_data.flatMap (fun d =>
    let ms := epidemiology_data.filter (fun e => e.location_key == d.location_key)
    if ms.isEmpty then [rowOfDemo d]
    else ms.map (fun e =>
      { rowOfDemo d with
          date := some e.date
          new_confirmed := e.new_confirmed
          new_deceased := e.new_deceased }))

/-- Left merge with health on `location_key` (etl.py line 52). -/
def mergeHealth (m : List MRow) (health_data : List HealthRow) : List MRow :=
  m.flatMap (fun r =>
    let ms := health_data.filter (fun h => h.location_key == r.location_key)
    if ms.isEmpty then [r] else ms.map (fun _ => r))

/-- Left merge with hospitalizations on (`location_key`, `date`)
(etl.py line 54). -/
def mergeHosp (m : List MRow) (hospitalizations_data : List HospRow) : List MRow :=
  m.flatMap (fun r =>
    let ms := hospitalizations_data.filter
      (fun h => h.location_key == r.location_key && r.date == some h.date)
    if ms.isEmpty then [r] else ms.map (fun _ => r))

/-- Left merge with the index table on `location_key` (etl.py line 56);
this is where `country_code` and `country_name` enter the macrotable. -/
def mergeIndex (m : List MRow) (index_data : List IndexRow) : List MRow :=
  m.flatMap (fun r =>
    let ms := index_data.filter (fun i => i.location_key == r.location_key)
    if ms.isEmpty then [r]
    else ms.map (fun i =>
      { r with country_code := i.country_code, country_name := i.country_name }))

/-- Left merge with vaccinations on (`location_key`, `date`)
(etl.py line 58). -/
def mergeVacc (m : List MRow) (vaccinations_data : List VaccRow) : List MRow :=
  m.flatMap (fun r =>
    let ms := vaccinations_data.filter
      (fun v => v.location_key == r.location_key && r.date == some v.date)
    if ms.isEmpty then [r] else ms.map (fun _ => r))

/-- Mean of the non-missing entries of a column, `none` when every entry is
missing (pandas `Series.mean` with `skipna=True` returns `NaN` in that
case, and `fillna` with a `NaN` fill value changes nothing). -/
def meanOf (t : List MRow) (f : MRow → Option ℚ) : Option ℚ :=
  let vals := t.filterMap f
  if vals.length = 0 then none else some (vals.sum / (vals.length : ℚ))

/-- `fillna` on a single cell: keep a present value, otherwise use the
fill value (which may itself be missing). -/
def fillWith (cur v : Option ℚ) : Option ℚ :=
  match cur with
  | some x => some x
  | none => v

/-- Mean imputation of the eleven by-sex / by-age-band population columns
(etl.py lines 72-84).  The means are those of the table the stage is
applied to, computed before any filling, exactly as in the source where the
dict of fill values is evaluated before the assignment. -/
def fillMeansRow (t : List MRow) (r : MRow) : MRow :=
  { r with
    population_age_20_29 := fillWith r.population_age_20_29 (meanOf t (·.population_age_20_29))
    population_age_70_79 := fillWith r.population_age_70_79 (meanOf t (·.population_age_70_79))
    population_age_60_69 := fillWith r.population_age_60_69 (meanOf t (·.population_age_60_69))
    population_age_50_59 := fillWith r.population_age_50_59 (meanOf t (·.population_age_50_59))
    population_age_40_49 := fillWith r.population_age_40_49 (meanOf t (·.population_age_40_49))
    population_age_30_39 := fillWith r.population_age_30_39 (meanOf t (·.population_age_30_39))
    population_age_80_and_older :=
      fillWith r.population_age_80_and_older (meanOf t (·.population_age_80_and_older))
    population_age_10_19 := fillWith r.population_age_10_19 (meanOf t (·.population_age_10_19))
    population_age_00_09 := fillWith r.population_age_00_09 (meanOf t (·.population_age_00_09))
    population_female := fillWith r.population_female (meanOf t (·.population_female))
    population_male := fillWith r.population_male (meanOf t (·.population_male)) }

/-- The mean-imputation stage applied to the whole table. -/
def fillMeansStage (t : List MRow) : List MRow := t.map (fillMeansRow t)

/-- Fill a missing `population` with `population_male + population_female`
(etl.py line 87).  In pandas the fill column is the elementwise sum, which
is `NaN` (here `none`) as soon as either summand is missing. -/
def fillPopulationRow (r : MRow) : MRow :=
  let mf : Option ℚ :=
    match r.population_male, r.population_female with
    | some m, some f => some (m + f)
    | _, _ => none
  { r with population := fillWith r.population mf }

/-- The population-filling stage applied to the whole table. -/
def fillPopulationStage (t : List MRow) : List MRow := t.map fillPopulationRow

/-- Order on the (possibly missing) date used by `sort_values`: pandas
places `NaN` dates last. -/
def dateLeB : Option Nat → Option Nat → Bool
  | some a, some b => a ≤ b
  | some _, none => true
  | none, none => true
  | none, some _ => false

/-- The sort key of etl.py line 90: by `location_key`, then by `date`. -/
def rowLe (a b : MRow) : Prop :=
  a.location_key < b.location_key ∨
    (a.location_key = b.location_key ∧ dateLeB a.date b.date = true)

instance : DecidableRel rowLe := fun a b => by unfold rowLe; infer_instance

instance : IsTotal MRow rowLe := by
  constructor
  intro a b
  unfold rowLe
  rcases Nat.lt_trichotomy a.location_key b.location_key with h | h | h
  · exact Or.inl (Or.inl h)
  · rcases ha : a.date with _ | da <;> rcases hb : b.date with _ | db <;>
      simp [dateLeB, h] <;> omega
  · exact Or.inr (Or.inl h)

instance : IsTrans MRow rowLe := by
  constructor
  intro a b c hab hbc
  unfold rowLe at *
  rcases hab with h1 | ⟨h1, h1d⟩ <;> rcases hbc with h2 | ⟨h2, h2d⟩
  · exact Or.inl (h1.trans h2)
  · exact Or.inl (h2 ▸ h1)
  · exact Or.inl (h1 ▸ h2)
  · refine Or.inr ⟨h1.trans h2, ?_⟩
    rcases ha : a.date with _ | da <;> rcases hb : b.date with _ | db <;>
        rcases hc : c.date with _ | dc <;>
      simp_all [dateLeB] <;> omega

/-- Sorting of the macrotable by (`location_key`, `date`) (etl.py
line 90). -/
def sortRows (t : List MRow) : List MRow := List.insertionSort rowLe t

/-- Cleaning of one flow cell (etl.py lines 93-94 / 97-98): a missing
value becomes 0, then a negative value is replaced by 0. -/
def cleanValue (v : Option ℚ) : ℚ :=
  let v1 := v.getD 0
  if v1 < 0 then 0 else v1

/-- Flow cleaning applied to one row. -/
def cleanFlowsRow (r : MRow) : MRow :=
  { r with new_confirmed := some (cleanValue r.new_confirmed),
           new_deceased := some (cleanValue r.new_deceased) }

/-- The flow-metric cleaning stage (etl.py lines 92-98); it rewrites the
two flow columns and touches nothing else, in particular it drops no
row. -/
def cleanFlowsStage (t : List MRow) : List MRow := t.map cleanFlowsRow

/-- Grouped cumulative sum of one cell: pandas
`groupby('location_key')[col].cumsum()` leaves `NaN` cells `NaN` and
otherwise sums the non-missing values of the same location over the rows
up to and including the current one (`done` is the already-traversed
part of the table, in order). -/
def cumAt (done : List MRow) (r : MRow) (f : MRow → Option ℚ) : Option ℚ :=
  (f r).map (fun _ =>
    (((done ++ [r]).filter (fun x => x.location_key == r.location_key)).filterMap f).sum)

/-- Traversal underlying the grouped cumulative sums of etl.py
lines 101-102. -/
def groupCumsum : List MRow → List MRow → List MRow
  | _, [] => []
  | done, r :: rs =>
    { r with cumulative_confirmed := cumAt done r (·.new_confirmed),
             cumulative_deceased := cumAt done r (·.new_deceased) }
      :: groupCumsum (done ++ [r]) rs

/-- The cumulative-derivation stage (etl.py lines 101-102). -/
def cumsumStage (t : List MRow) : List MRow := groupCumsum [] t

/-- Row filtering of etl.py lines 105-107: drop rows missing
`country_code`, `date` or `cumulative_confirmed`. -/
def dropIncompleteRows (t : List MRow) : List MRow :=
  ((t.filter (fun r => r.country_code.isSome)).filter (fun r => r.date.isSome)).filter
    (fun r => r.cumulative_confirmed.isSome)

/-- Row-level pipeline of `combine_data` (etl.py lines 45-112): the five
left merges followed by imputation, sorting, flow cleaning, grouped
cumulative sums and the final row filter.  The two schema-level steps (60 %
pruning and the fixed column drop, lines 62-69) act on column names, not on
row values, and are modelled separately by `dropSparseColumns` and
`dropColumns`; the row-level model keeps the columns that those steps must
leave in place for the subsequent lines of the source to run at all.  The
final `pd.to_datetime` conversion is the identity in this model, where
dates are already day numbers. -/
def combineRows (demographics_data : List DemoRow) (epidemiology_data : List EpiRow)
    (health_data : List HealthRow) (hospitalizations_data : List HospRow)
    (index_data : List IndexRow) (vaccinations_data : List VaccRow) : List MRow :=
  dropIncompleteRows (cumsumStage (cleanFlowsStage (sortRows
    (fillPopulationStage (fillMeansStage
      (mergeVacc
        (mergeIndex
          (mergeHosp
            (mergeHealth (mergeDemoEpi demographics_data epidemiology_data) health_data)
            hospitalizations_data)
          index_data)
        vaccinations_data))))))

/-- Number of non-missing entries of a column. -/
def nonNullCount (col : List (Option ℚ)) : Nat := (col.filterMap id).length

/-- Column pruning of etl.py lines 62-64: `dropna(thresh=len*0.6, axis=1)`
keeps exactly the columns with at least `0.6 * nrows` non-missing entries,
where `nrows` is the full post-join row count. -/
def dropSparseColumns (cols : List (String × List (Option ℚ))) (nrows : Nat) :
    List (String × List (Option ℚ)) :=
  cols.filter (fun c => decide ((nrows : ℚ) * (6 / 10) ≤ (nonNullCount c.2 : ℚ)))

/-- The hard-coded identifier/metadata columns of etl.py line 68. -/
def fixedColumns : List String :=
  ["datacommons_id", "place_id", "subregion2_code", "subregion2_name", "wikidata_id",
   "subregion1_name", "iso_3166_1_alpha_3", "aggregation_level", "subregion1_code",
   "iso_3166_1_alpha_2", "life_expectancy"]

/-- `DataFrame.drop(columns=names)` (etl.py line 69): with the default
`errors='raise'`, pandas raises a `KeyError` when any requested label is
absent from the table; otherwise every listed column is removed. -/
def dropColumns (cols : List (String × List (Option ℚ))) (names : List String) :
    Except String (List (String × List (Option ℚ))) :=
  if names.all (fun n => cols.any (fun c => c.1 == n)) then
    Except.ok (cols.filter (fun c => !(names.contains c.1)))
  else
    Except.error "KeyError"

/-- Whether the optional country list triggers the country filter: Python
`if country_list:` is false for `None` and for an empty list. -/
def countryFilterActive : Option (List Nat) → Bool
  | none => false
  | some cs => !cs.isEmpty

/-- The date-range predicate of etl.py line 119; a missing date compares
false (as `NaT` does in pandas). -/
def inDateRange (start_period end_period : Nat) (r : MRow) : Bool :=
  match r.date with
  | some d => decide (start_period ≤ d) && decide (d ≤ end_period)
  | none => false

/-- The `isin` predicate of etl.py line 124; a missing country name is
never a member. -/
def inCountryList (cs : List Nat) (r : MRow) : Bool :=
  match r.country_name with
  | some c => cs.contains c
  | none => false

/-- `refine_data` (etl.py lines 114-126): keep rows whose date is in the
inclusive range, then, only when a non-empty country list was provided,
keep rows whose country name is in the list. -/
def refineData (mtable : List MRow) (start_period end_period : Nat)
    (country_list : Option (List Nat)) : List MRow :=
  let byDate := mtable.filter (inDateRange start_period end_period)
  if countryFilterActive country_list then
    byDate.filter (inCountryList (country_list.getD []))
  else byDate

/-- Loop body of `create_date_intervals`, driven by an explicit fuel so
that the recursion is structural (and hence computes by `decide`); the
fuel `interval_end_date + 1 - interval_start` always suffices because each
iteration advances the start by at least one day. -/
def createLoop : Nat → Nat → Nat → Nat → List (Nat × Nat)
  | 0, _, _, _ => []
  | fuel + 1, interval_start, interval_end_date, interval_days =>
    if interval_start ≤ interval_end_date then
      let interval_end := min (interval_start + (interval_days - 1)) interval_end_date
      (interval_start, interval_end) ::
        createLoop fuel (interval_end + 1) interval_end_date interval_days
    else []

/-- `create_date_intervals` (etl.py lines 130-146) on day numbers: starting
at `interval_start`, emit closed intervals of `interval_days` days, the last
one truncated at `interval_end_date`. -/
def createDateIntervals (interval_start interval_end_date interval_days : Nat) :
    List (Nat × Nat) :=
  createLoop (interval_end_date + 1 - interval_start) interval_start interval_end_date
    interval_days

/-- The fuel argument of `createLoop` does not matter as long as it is at
least `interval_end_date + 1 - interval_start`. -/
theorem createLoop_congr (interval_end_date interval_days : Nat) :
    ∀ (f1 f2 interval_start : Nat),
      interval_end_date + 1 - interval_start ≤ f1 →
      interval_end_date + 1 - interval_start ≤ f2 →
      createLoop f1 interval_start interval_end_date interval_days
        = createLoop f2 interval_start interval_end_date interval_days := by
  intro f1
  induction f1 with
  | zero =>
    intro f2 s h1 h2
    have hs : ¬ s ≤ interval_end_date := by omega
    cases f2 with
    | zero => rfl
    | succ f2 => simp [createLoop, hs]
  | succ f1 ih =>
    intro f2 s h1 h2
    by_cases hs : s ≤ interval_end_date
    · cases f2 with
      | zero => omega
      | succ f2 =>
        simp only [createLoop, hs, if_true]
        have hm : s ≤ min (s + (interval_days - 1)) interval_end_date := by
          simp only [Nat.le_min]; omega
        exact congrArg _ (ih f2 _ (by omega) (by omega))
    · cases f2 with
      | zero => simp [createLoop, hs]
      | succ f2 => simp [createLoop, hs]

/-- The natural unfolding equation of `create_date_intervals`: it is
exactly the while loop of etl.py lines 139-144. -/
theorem createDateIntervals_eq (interval_start interval_end_date interval_days : Nat) :
    createDateIntervals interval_start interval_end_date interval_days
      = if interval_start ≤ interval_end_date then
          (interval_start, min (interval_start + (interval_days - 1)) interval_end_date) ::
            createDateIntervals
              (min (interval_start + (interval_days - 1)) interval_end_date + 1)
              interval_end_date interval_days
        else [] := by
  unfold createDateIntervals
  by_cases hs : interval_start ≤ interval_end_date
  · have h1 : interval_end_date + 1 - interval_start
        = (interval_end_date - interval_start) + 1 := by omega
    rw [h1]
    simp only [createLoop, hs, if_true]
    refine congrArg _ ?_
    exact createLoop_congr interval_end_date interval_days _ _ _ (by omega) (by omega)
  · have h1 : interval_end_date + 1 - interval_start ≤ interval_end_date + 1 - interval_start :=
      le_refl _
    cases hf : interval_end_date + 1 - interval_start with
    | zero => simp [createLoop, hs]
    | succ f => simp [createLoop, hs]

/-- The per-date dictionary of etl.py lines 157-165, looked up at a single
date: the (unique) generated interval containing the date, `none` when no
interval contains it (a `KeyError` in the source). -/
def lookupWeek (date_ranges : List (Nat × Nat)) (d : Nat) : Option (Nat × Nat) :=
  date_ranges.find? (fun iv => decide (iv.1 ≤ d) && decide (d ≤ iv.2))

/-- Minimum of a list of day numbers (`Series.min`); 0 on the empty list,
a case the source never reaches when a lookup is performed. -/
def listMin : List Nat → Nat
  | [] => 0
  | h :: t => t.foldl Nat.min h

/-- Maximum of a list of day numbers (`Series.max`). -/
def listMax : List Nat → Nat
  | [] => 0
  | h :: t => t.foldl Nat.max h

/-- A macrotable row after week labelling (etl.py line 168), keeping the
fields the aggregation reads. -/
structure LRow where
  week : Nat × Nat
  country_name : Option Nat
  new_confirmed : Option ℚ
  new_deceased : Option ℚ
deriving DecidableEq

/-- Week labelling of the whole table (etl.py line 168): every row's date
is looked up in the interval dictionary; one failed lookup aborts the
whole comprehension with a `KeyError`, modelled as `none`. -/
def labelRows (date_ranges : List (Nat × Nat)) : List MRow → Option (List LRow)
  | [] => some []
  | r :: rs =>
    match r.date.bind (lookupWeek date_ranges) with
    | none => none
    | some w =>
      (labelRows date_ranges rs).map
        (fun t => ⟨w, r.country_name, r.new_confirmed, r.new_deceased⟩ :: t)

/-- One row of the weekly aggregation, before the cumulative pass. -/
structure AggRow where
  week : Nat × Nat
  country_name : Nat
  new_confirmed : ℚ
  new_deceased : ℚ
deriving DecidableEq

/-- The grouping keys of etl.py line 171: the distinct (week, country)
pairs, rows with a missing country name being dropped by `groupby`. -/
def groupKeys (labeled : List LRow) : List ((Nat × Nat) × Nat) :=
  (labeled.filterMap (fun x => x.country_name.map (fun c => (x.week, c)))).dedup

/-- Weekly grouping with summed flow metrics (etl.py lines 171-174 before
the sort): one row per distinct (week, country) key, flows summed with
`skipna` semantics. -/
def groupAgg (labeled : List LRow) : List AggRow :=
  (groupKeys labeled).map (fun k =>
    let grp := labeled.filter (fun x => x.week == k.1 && x.country_name == some k.2)
    ⟨k.1, k.2, (grp.filterMap (·.new_confirmed)).sum, (grp.filterMap (·.new_deceased)).sum⟩)

/-- Chronological order of week labels.  The source sorts the `start/end`
label strings lexicographically; for ISO date strings this is exactly the
lexicographic order of the (start, end) day-number pairs. -/
def weekLeB (a b : Nat × Nat) : Bool :=
  decide (a.1 < b.1) || (decide (a.1 = b.1) && decide (a.2 ≤ b.2))

/-- The sort key of etl.py line 174: by `country_name`, then by week. -/
def aggLe (a b : AggRow) : Prop :=
  a.country_name < b.country_name ∨
    (a.country_name = b.country_name ∧ weekLeB a.week b.week = true)

instance : DecidableRel aggLe := fun a b => by unfold aggLe; infer_instance

instance : IsTotal AggRow aggLe := by
  constructor
  intro a b
  unfold aggLe weekLeB
  rcases Nat.lt_trichotomy a.country_name b.country_name with h | h | h
  · exact Or.inl (Or.inl h)
  · rcases Nat.lt_trichotomy a.week.1 b.week.1 with h2 | h2 | h2 <;> simp [h, h2] <;> omega
  · exact Or.inr (Or.inl h)

instance : IsTrans AggRow aggLe := by
  constructor
  intro a b c hab hbc
  unfold aggLe weekLeB at *
  rcases hab with h1 | ⟨h1, h1d⟩ <;> rcases hbc with h2 | ⟨h2, h2d⟩
  · exact Or.inl (h1.trans h2)
  · exact Or.inl (h2 ▸ h1)
  · exact Or.inl (h1 ▸ h2)
  · refine Or.inr ⟨h1.trans h2, ?_⟩
    simp only [Bool.or_eq_true, Bool.and_eq_true, decide_eq_true_eq] at *
    omega

/-- `sort_values(['country_name', 'week'])` of etl.py line 174. -/
def sortAgg (l : List AggRow) : List AggRow := List.insertionSort aggLe l

/-- One aggregated weekly row after the two cumulative passes. -/
structure AggRow2 where
  week : Nat × Nat
  country_name : Nat
  new_confirmed : ℚ
  new_deceased : ℚ
  cumulative_confirmed : ℚ
  cumulative_deceased : ℚ
deriving DecidableEq

/-- The index loops of etl.py lines 177-192: walking the rows in order, a
row whose country differs from the previous row's restarts the cumulative
at its own weekly sum, any other row adds its weekly sum to the previous
row's cumulative.  The two passes of the source (confirmed, then deceased)
have identical structure and are computed together; each reads only its own
columns, so the fusion is exact. -/
def addCumLoop : Option (Nat × ℚ × ℚ) → List AggRow → List AggRow2
  | _, [] => []
  | prev, r :: rs =>
    let cums : ℚ × ℚ :=
      match prev with
      | some (pc, pcc, pcd) =>
        if r.country_name = pc then (pcc + r.new_confirmed, pcd + r.new_deceased)
        else (r.new_confirmed, r.new_deceased)
      | none => (r.new_confirmed, r.new_deceased)
    ⟨r.week, r.country_name, r.new_confirmed, r.new_deceased, cums.1, cums.2⟩ ::
      addCumLoop (some (r.country_name, cums.1, cums.2)) rs

/-- Order on aggregated rows by week label only (etl.py line 195). -/
def weekRowLe (a b : AggRow2) : Prop := weekLeB a.week b.week = true

instance : DecidableRel weekRowLe := fun a b => by unfold weekRowLe; infer_instance

instance : IsTotal AggRow2 weekRowLe := by
  constructor
  intro a b
  unfold weekRowLe weekLeB
  rcases Nat.lt_trichotomy a.week.1 b.week.1 with h | h | h <;> simp [h] <;> omega

instance : IsTrans AggRow2 weekRowLe := by
  constructor
  intro a b c hab hbc
  unfold weekRowLe weekLeB at *
  simp only [Bool.or_eq_true, Bool.and_eq_true, decide_eq_true_eq] at *
  omega

/-- `sort_values('week')` of etl.py line 195. -/
def sortWeek (l : List AggRow2) : List AggRow2 := List.insertionSort weekRowLe l

/-- One row of `population_by_country` (etl.py lines 198-214): the twelve
population columns summed per country (`GroupBy.sum` turns an all-missing
group into 0). -/
structure PopRow where
  country_name : Nat
  population : ℚ
  population_male : ℚ
  population_female : ℚ
  population_age_00_09 : ℚ
  population_age_10_19 : ℚ
  population_age_20_29 : ℚ
  population_age_30_39 : ℚ
  population_age_70_79 : ℚ
  population_age_60_69 : ℚ
  population_age_50_59 : ℚ
  population_age_40_49 : ℚ
  population_age_80_and_older : ℚ
deriving DecidableEq

/-- `demographics ⟕ index` on `location_key` followed by the per-country
population sums (etl.py lines 198-214). -/
def popByCountry (demographics_data : List DemoRow) (index_data : List IndexRow) :
    List PopRow :=
  let di : List (DemoRow × Option Nat) := demographics_data.flatMap (fun d =>
    let ms := index_data.filter (fun i => i.location_key == d.location_key)
    if ms.isEmpty then [(d, none)] else ms.map (fun i => (d, i.country_name)))
  (di.filterMap Prod.snd).dedup.map (fun c =>
    let grp := (di.filter (fun p => p.2 == some c)).map Prod.fst
    { country_name := c
      population := (grp.filterMap (·.population)).sum
      population_male := (grp.filterMap (·.population_male)).sum
      population_female := (grp.filterMap (·.population_female)).sum
      population_age_00_09 := (grp.filterMap (·.population_age_00_09)).sum
      population_age_10_19 := (grp.filterMap (·.population_age_10_19)).sum
      population_age_20_29 := (grp.filterMap (·.population_age_20_29)).sum
      population_age_30_39 := (grp.filterMap (·.population_age_30_39)).sum
      population_age_70_79 := (grp.filterMap (·.population_age_70_79)).sum
      population_age_60_69 := (grp.filterMap (·.population_age_60_69)).sum
      population_age_50_59 := (grp.filterMap (·.population_age_50_59)).sum
      population_age_40_49 := (grp.filterMap (·.population_age_40_49)).sum
      population_age_80_and_older := (grp.filterMap (·.population_age_80_and_older)).sum })

/-- Final output row: an aggregated weekly row with the joined per-country
population columns (missing when the country is absent from the
population table). -/
structure OutRow where
  week : Nat × Nat
  country_name : Nat
  new_confirmed : ℚ
  new_deceased : ℚ
  cumulative_confirmed : ℚ
  cumulative_deceased : ℚ
  population : Option ℚ
  population_male : Option ℚ
  population_female : Option ℚ
  population_age_00_09 : Option ℚ
  population_age_10_19 : Option ℚ
  population_age_20_29 : Option ℚ
  population_age_30_39 : Option ℚ
  population_age_70_79 : Option ℚ
  population_age_60_69 : Option ℚ
  population_age_50_59 : Option ℚ
  population_age_40_49 : Option ℚ
  population_age_80_and_older : Option ℚ
deriving DecidableEq

/-- Left merge of an aggregated weekly row with `population_by_country` on
`country_name` (etl.py line 217); the population table has one row per
country by construction, so the merge is a per-row lookup. -/
def joinPop (pops : List PopRow) (r : AggRow2) : OutRow :=
  match pops.find? (fun p => p.country_name == r.country_name) with
  | some p =>
    { week := r.week, country_name := r.country_name
      new_confirmed := r.new_confirmed, new_deceased := r.new_deceased
      cumulative_confirmed := r.cumulative_confirmed
      cumulative_deceased := r.cumulative_deceased
      population := some p.population
      population_male := some p.population_male
      population_female := some p.population_female
      population_age_00_09 := some p.population_age_00_09
      population_age_10_19 := some p.population_age_10_19
      population_age_20_29 := some p.population_age_20_29
      population_age_30_39 := some p.population_age_30_39
      population_age_70_79 := some p.population_age_70_79
      population_age_60_69 := some p.population_age_60_69
      population_age_50_59 := some p.population_age_50_59
      population_age_40_49 := some p.population_age_40_49
      population_age_80_and_older := some p.population_age_80_and_older }
  | none =>
    { week := r.week, country_name := r.country_name
      new_confirmed := r.new_confirmed, new_deceased := r.new_deceased
      cumulative_confirmed := r.cumulative_confirmed
      cumulative_deceased := r.cumulative_deceased
      population := none, population_male := none, population_female := none
      population_age_00_09 := none, population_age_10_19 := none
      population_age_20_29 := none, population_age_30_39 := none
      population_age_70_79 := none, population_age_60_69 := none
      population_age_50_59 := none, population_age_40_49 := none
      population_age_80_and_older := none }

/-- `aggregate_data` (etl.py lines 128-219): weekly intervals are generated
from the global min/max date of the *unfiltered* epidemiology source, every
macrotable row is labelled by dictionary lookup (`none` models the
`KeyError` of a failed lookup, the only failure of this stage modelled
here; the source would also fail earlier on an empty epidemiology table,
before any lookup), flows are summed per (week, country), the two
cumulative passes run over the (country, week)-sorted rows, the result is
re-sorted by week and the per-country population sums are joined in. -/
def aggregateData (mtable : List MRow) (epidemiology_data : List EpiRow)
    (demographics_data : List DemoRow) (index_data : List IndexRow) :
    Option (List OutRow) :=
  let min_date := listMin (epidemiology_data.map (·.date))
  let max_date := listMax (epidemiology_data.map (·.date))
  let date_ranges := createDateIntervals min_date max_date 7
  match labelRows date_ranges mtable with
  | none => none
  | some labeled =>
    let aggregated_df := addCumLoop none (sortAgg (groupAgg labeled))
    let pops := popByCountry demographics_data index_data
    some ((sortWeek aggregated_df).map (joinPop pops))

/-! ## Claim theorems -/

/-- C10: calling `refine_data` with an explicitly provided but empty
country list applies no country restriction: the result coincides with the
omitted-list call and equals filtering by the date range alone. -/
theorem C10_empty_country_list_is_no_restriction (t : List MRow)
    (start_period end_period : Nat) :
    refineData t start_period end_period (some []) =
        refineData t start_period end_period none ∧
    refineData t start_period end_period (some []) =
        t.filter (inDateRange start_period end_period) :=
  ⟨rfl, rfl⟩

/-- C5: `refine_data` is a pure subset filter: a row survives exactly when
its date lies in the inclusive range and, whenever a non-empty country list
is given, its country name is in that list; the output is a sublist of the
input (no mutation, no reordering beyond filtering). -/
theorem C5_refine_data_pure_subset_filter (t : List MRow)
    (start_period end_period : Nat) (country_list : Option (List Nat)) :
    (refineData t start_period end_period country_list).Sublist t ∧
    ∀ r : MRow,
      r ∈ refineData t start_period end_period country_list ↔
        r ∈ t ∧ (∃ d, r.date = some d ∧ start_period ≤ d ∧ d ≤ end_period) ∧
          (countryFilterActive country_list = true →
            ∃ c, r.country_name = some c ∧ c ∈ country_list.getD []) := by
  constructor
  · unfold refineData
    by_cases hc : countryFilterActive country_list = true
    · simp only [hc, if_true]
      exact (List.filter_sublist _).trans (List.filter_sublist _)
    · simp only [Bool.not_eq_true] at hc
      simp only [hc, Bool.false_eq_true, if_false]
      exact List.filter_sublist _
  · intro r
    unfold refineData
    by_cases hc : countryFilterActive country_list = true
    · simp only [hc, if_true, List.mem_filter, true_implies]
      constructor
      · rintro ⟨⟨hmem, hdate⟩, hcountry⟩
        refine ⟨hmem, ?_, ?_⟩
        · rcases hd : r.date with _ | d
          · rw [inDateRange, hd] at hdate; exact absurd hdate (by simp)
          · rw [inDateRange, hd] at hdate
            simp only [Bool.and_eq_true, decide_eq_true_eq] at hdate
            exact ⟨d, rfl, hdate.1, hdate.2⟩
        · rcases hcn : r.country_name with _ | c
          · rw [inCountryList, hcn] at hcountry; exact absurd hcountry (by simp)
          · rw [inCountryList, hcn] at hcountry
            exact ⟨c, rfl, by simpa using hcountry⟩
      · rintro ⟨hmem, ⟨d, hd, h1, h2⟩, hcountry⟩
        rcases hcountry with ⟨c, hcn, hcmem⟩
        refine ⟨⟨hmem, ?_⟩, ?_⟩
        · rw [inDateRange, hd]; simp [h1, h2]
        · rw [inCountryList, hcn]; simpa using hcmem
    · simp only [Bool.not_eq_true] at hc
      simp only [hc, Bool.false_eq_true, if_false, List.mem_filter]
      constructor
      · rintro ⟨hmem, hdate⟩
        refine ⟨hmem, ?_, by simp [hc]⟩
        rcases hd : r.date with _ | d
        · rw [inDateRange, hd] at hdate; exact absurd hdate (by simp)
        · rw [inDateRange, hd] at hdate
          simp only [Bool.and_eq_true, decide_eq_true_eq] at hdate
          exact ⟨d, rfl, hdate.1, hdate.2⟩
      · rintro ⟨hmem, ⟨d, hd, h1, h2⟩, _⟩
        refine ⟨hmem, ?_⟩
        rw [inDateRange, hd]; simp [h1, h2]

/-- A cleaned flow cell is non-negative. -/
theorem cleanValue_nonneg (v : Option ℚ) : 0 ≤ cleanValue v := by
  unfold cleanValue
  by_cases h : v.getD 0 < 0
  · simp [h]
  · simpa [h] using le_of_not_lt h

/-- C9: after the flow-metric cleaning of `combine_data`, every row has
present, non-negative `new_confirmed` and `new_deceased` (missing values
became 0, negatives were clamped to 0), and the step drops no row. -/
theorem C9_flow_cleaning_nonneg (t : List MRow) :
    (cleanFlowsStage t).length = t.length ∧
    ∀ r ∈ cleanFlowsStage t,
      (∃ c, r.new_confirmed = some c ∧ 0 ≤ c) ∧
      (∃ d, r.new_deceased = some d ∧ 0 ≤ d) := by
  constructor
  · exact List.length_map _ _
  · intro r hr
    rcases List.mem_map.1 hr with ⟨x, _, rfl⟩
    exact ⟨⟨cleanValue x.new_confirmed, rfl, cleanValue_nonneg _⟩,
      ⟨cleanValue x.new_deceased, rfl, cleanValue_nonneg _⟩⟩

/-- Witness for C9 at the spec's own scenario (`new_deceased = -5` cleaned
to 0, a missing `new_confirmed` zeroed). -/
theorem C9_flow_cleaning_nonneg_witness :
    (∃ c, (cleanFlowsRow { location_key := 1, new_deceased := some (-5) } : MRow).new_confirmed
        = some c ∧ 0 ≤ c) ∧
    (∃ d, (cleanFlowsRow { location_key := 1, new_deceased := some (-5) } : MRow).new_deceased
        = some d ∧ 0 ≤ d) :=
  (C9_flow_cleaning_nonneg [{ location_key := 1, new_deceased := some (-5) }]).2 _
    (by simp [cleanFlowsStage])

/-- The mean-imputation stage leaves `population` untouched. -/
theorem fillMeansRow_population (t : List MRow) (r : MRow) :
    (fillMeansRow t r).population = r.population := rfl

/-- C8: in `combine_data`, a row whose `population` is missing gets it
filled with `population_male + population_female`, both taken after their
own mean imputation. -/
theorem C8_population_filled_from_imputed_sexes (t : List MRow) (i : Nat)
    (hi : i < t.length) (hi1 : i < (fillMeansStage t).length)
    (hi2 : i < (fillPopulationStage (fillMeansStage t)).length) (m f : ℚ)
    (hmiss : (t.get ⟨i, hi⟩).population = none)
    (hm : ((fillMeansStage t).get ⟨i, hi1⟩).population_male = some m)
    (hf : ((fillMeansStage t).get ⟨i, hi1⟩).population_female = some f) :
    ((fillPopulationStage (fillMeansStage t)).get ⟨i, hi2⟩).population = some (m + f) := by
  have hg : (fillPopulationStage (fillMeansStage t)).get ⟨i, hi2⟩
      = fillPopulationRow ((fillMeansStage t).get ⟨i, hi1⟩) := by
    unfold fillPopulationStage
    exact List.get_map _
  have hpop : ((fillMeansStage t).get ⟨i, hi1⟩).population = none := by
    have : (fillMeansStage t).get ⟨i, hi1⟩ = fillMeansRow t (t.get ⟨i, hi⟩) := by
      unfold fillMeansStage
      exact List.get_map _
    rw [this, fillMeansRow_population, hmiss]
  rw [hg]
  unfold fillPopulationRow
  simp only [hm, hf, hpop]
  rfl

/-- Witness for C8 at the spec's own scenario: `population` missing,
`population_male = 40`, `population_female = 60`, filled value 100. -/
theorem C8_population_filled_from_imputed_sexes_witness :
    ((fillPopulationStage (fillMeansStage
        [{ location_key := 1, population_male := some 40, population_female := some 60 }])).get
      ⟨0, by decide⟩).population = some 100 := by
  have h := C8_population_filled_from_imputed_sexes
    [{ location_key := 1, population_male := some 40, population_female := some 60 }]
    0 (by decide) (by decide) (by decide) 40 60 (by decide) (by decide) (by decide)
  have h2 : (40 : ℚ) + 60 = 100 := by norm_num
  rw [h2] at h
  simpa using h

/-- C4: the post-join column pruning keeps a column whose non-missing count
is exactly 60 % of the total row count and drops a column whose non-missing
count is strictly below 60 % of it, the threshold `nrows * 0.6` being the
one fixed number computed from the full post-join row count. -/
theorem C4_sparse_column_threshold (cols : List (String × List (Option ℚ)))
    (nrows : Nat) (name : String) (col : List (Option ℚ))
    (hmem : (name, col) ∈ cols) :
    ((nonNullCount col : ℚ) = (nrows : ℚ) * (6 / 10) →
      (name, col) ∈ dropSparseColumns cols nrows) ∧
    ((nonNullCount col : ℚ) < (nrows : ℚ) * (6 / 10) →
      (name, col) ∉ dropSparseColumns cols nrows) := by
  constructor
  · intro heq
    unfold dropSparseColumns
    refine List.mem_filter.2 ⟨hmem, ?_⟩
    simp only [decide_eq_true_eq]
    exact le_of_eq heq.symm
  · intro hlt hin
    unfold dropSparseColumns at hin
    have := (List.mem_filter.1 hin).2
    simp only [decide_eq_true_eq] at this
    exact absurd hlt (not_lt.2 this)

/-- Witness for C4: with 5 rows, a column with 3 non-missing values (60 %
exactly) is kept, a column with 1 non-missing value is dropped. -/
theorem C4_sparse_column_threshold_witness :
    ("a", [some (1 : ℚ), some 1, some 1, none, none]) ∈
        dropSparseColumns
          [("a", [some (1 : ℚ), some 1, some 1, none, none]),
           ("b", [some (1 : ℚ), none, none, none, none])] 5 ∧
    ("b", [some (1 : ℚ), none, none, none, none]) ∉
        dropSparseColumns
          [("a", [some (1 : ℚ), some 1, some 1, none, none]),
           ("b", [some (1 : ℚ), none, none, none, none])] 5 :=
  ⟨(C4_sparse_column_threshold _ 5 "a" _ (by simp)).1
      (by norm_num [nonNullCount, List.filterMap_cons, List.filterMap_nil]),
   (C4_sparse_column_threshold _ 5 "b" _ (by simp)).2
      (by norm_num [nonNullCount, List.filterMap_cons, List.filterMap_nil])⟩

/-- C7 counterexample: the claim that the fixed column drop happens
"without error, regardless of whether the 60 % rule already removed any of
the listed columns" is false.  Here every listed column is present with one
row, but `life_expectancy` is entirely missing, so the 60 % pruning removes
it and `drop(columns=...)` then raises a `KeyError` instead of removing the
remaining listed columns. -/
theorem C7_fixed_drop_can_error :
    dropColumns
      (dropSparseColumns
        [("datacommons_id", [some (1 : ℚ)]), ("place_id", [some 1]),
         ("subregion2_code", [some 1]), ("subregion2_name", [some 1]),
         ("wikidata_id", [some 1]), ("subregion1_name", [some 1]),
         ("iso_3166_1_alpha_3", [some 1]), ("aggregation_level", [some 1]),
         ("subregion1_code", [some 1]), ("iso_3166_1_alpha_2", [some 1]),
         ("life_expectancy", [none]), ("population", [some 1])] 1)
      fixedColumns = Except.error "KeyError" := by
  have h : dropSparseColumns
      [("datacommons_id", [some (1 : ℚ)]), ("place_id", [some 1]),
       ("subregion2_code", [some 1]), ("subregion2_name", [some 1]),
       ("wikidata_id", [some 1]), ("subregion1_name", [some 1]),
       ("iso_3166_1_alpha_3", [some 1]), ("aggregation_level", [some 1]),
       ("subregion1_code", [some 1]), ("iso_3166_1_alpha_2", [some 1]),
       ("life_expectancy", [none]), ("population", [some 1])] 1
      = [("datacommons_id", [some (1 : ℚ)]), ("place_id", [some 1]),
         ("subregion2_code", [some 1]), ("subregion2_name", [some 1]),
         ("wikidata_id", [some 1]), ("subregion1_name", [some 1]),
         ("iso_3166_1_alpha_3", [some 1]), ("aggregation_level", [some 1]),
         ("subregion1_code", [some 1]), ("iso_3166_1_alpha_2", [some 1]),
         ("population", [some 1])] := by
    norm_num [dropSparseColumns, List.filter_cons, nonNullCount, List.filterMap_cons,
      List.filterMap_nil]
  rw [h]
  rfl

/-- C7 (amended): after the 60 % pruning the fixed drop removes every
column of the hard-coded list provided each of them is still present; if
the 60 % rule already removed one of them, the drop instead raises a
`KeyError`. -/
theorem C7_fixed_column_drop (cols : List (String × List (Option ℚ))) :
    (fixedColumns.all (fun n => cols.any (fun c => c.1 == n)) = true →
      ∃ res, dropColumns cols fixedColumns = Except.ok res ∧
        ∀ p : String × List (Option ℚ), p ∈ res ↔ p ∈ cols ∧ p.1 ∉ fixedColumns) ∧
    (fixedColumns.all (fun n => cols.any (fun c => c.1 == n)) = false →
      dropColumns cols fixedColumns = Except.error "KeyError") := by
  constructor
  · intro hall
    unfold dropColumns
    rw [hall]
    simp only [if_true]
    refine ⟨_, rfl, ?_⟩
    intro p
    simp [List.mem_filter]
  · intro hfa
    unfold dropColumns
    rw [hfa]
    simp

/-- Witness for C7's amended statement: a table holding all eleven listed
columns (plus `population`) is dropped without error, and the error branch
fires on a table missing `life_expectancy`. -/
theorem C7_fixed_column_drop_witness :
    (∃ res, dropColumns
        [("datacommons_id", [some (1 : ℚ)]), ("place_id", [some 1]),
         ("subregion2_code", [some 1]), ("subregion2_name", [some 1]),
         ("wikidata_id", [some 1]), ("subregion1_name", [some 1]),
         ("iso_3166_1_alpha_3", [some 1]), ("aggregation_level", [some 1]),
         ("subregion1_code", [some 1]), ("iso_3166_1_alpha_2", [some 1]),
         ("life_expectancy", [some 1]), ("population", [some 1])]
        fixedColumns = Except.ok res ∧
      ∀ p : String × List (Option ℚ), p ∈ res ↔
        p ∈ [("datacommons_id", [some (1 : ℚ)]), ("place_id", [some 1]),
         ("subregion2_code", [some 1]), ("subregion2_name", [some 1]),
         ("wikidata_id", [some 1]), ("subregion1_name", [some 1]),
         ("iso_3166_1_alpha_3", [some 1]), ("aggregation_level", [some 1]),
         ("subregion1_code", [some 1]), ("iso_3166_1_alpha_2", [some 1]),
         ("life_expectancy", [some 1]), ("population", [some 1])] ∧
          p.1 ∉ fixedColumns) ∧
    dropColumns [("population", [some (1 : ℚ)])] fixedColumns
        = Except.error "KeyError" :=
  ⟨(C7_fixed_column_drop _).1 (by decide), (C7_fixed_column_drop _).2 (by decide)⟩

/-- Bounds of the generated intervals: each starts no earlier than the
requested start, is non-empty, ends within the requested end, and spans at
most `interval_days` days. -/
theorem createDateIntervals_bounds_aux (e days : Nat) :
    ∀ n s, e + 1 - s ≤ n →
      ∀ iv ∈ createDateIntervals s e days,
        s ≤ iv.1 ∧ iv.1 ≤ iv.2 ∧ iv.2 ≤ e ∧ iv.2 ≤ iv.1 + (days - 1) := by
  intro n
  induction n with
  | zero =>
    intro s hs iv hiv
    rw [createDateIntervals_eq] at hiv
    have hse : ¬ s ≤ e := by omega
    simp [hse] at hiv
  | succ n ih =>
    intro s hs iv hiv
    rw [createDateIntervals_eq] at hiv
    by_cases hse : s ≤ e
    · simp only [hse, if_true, List.mem_cons] at hiv
      rcases hiv with rfl | hiv
      · refine ⟨le_refl _, ?_, ?_, ?_⟩ <;> simp <;> omega
      · have hrec := ih (min (s + (days - 1)) e + 1) (by omega) iv hiv
        exact ⟨by omega, hrec.2.1, hrec.2.2.1, hrec.2.2.2⟩
    · simp [hse] at hiv

/-- Wrapper of `createDateIntervals_bounds_aux` at the canonical fuel. -/
theorem createDateIntervals_bounds (s e days : Nat) :
    ∀ iv ∈ createDateIntervals s e days,
      s ≤ iv.1 ∧ iv.1 ≤ iv.2 ∧ iv.2 ≤ e ∧ iv.2 ≤ iv.1 + (days - 1) :=
  createDateIntervals_bounds_aux e days (e + 1 - s) s (le_refl _)

/-- Every day of the covered span is contained in exactly one generated
interval. -/
theorem createDateIntervals_countP_aux (e days : Nat) :
    ∀ n s, e + 1 - s ≤ n → ∀ d, s ≤ d → d ≤ e →
      (createDateIntervals s e days).countP
          (fun iv => decide (iv.1 ≤ d) && decide (d ≤ iv.2)) = 1 := by
  intro n
  induction n with
  | zero => intro s hs d h1 h2; omega
  | succ n ih =>
    intro s hs d h1 h2
    have hse : s ≤ e := le_trans h1 h2
    rw [createDateIntervals_eq]
    simp only [hse, if_true, List.countP_cons]
    by_cases hd : d ≤ min (s + (days - 1)) e
    · have htail : (createDateIntervals (min (s + (days - 1)) e + 1) e days).countP
          (fun iv => decide (iv.1 ≤ d) && decide (d ≤ iv.2)) = 0 := by
        rw [List.countP_eq_zero]
        intro iv hiv
        have hb := createDateIntervals_bounds _ e days iv hiv
        simp only [Bool.and_eq_true, decide_eq_true_eq, not_and]
        intro hle
        omega
      rw [htail]
      simp [h1, hd]
    · have hlt : min (s + (days - 1)) e < e := by omega
      rw [ih (min (s + (days - 1)) e + 1) (by omega) d (by omega) h2]
      simp [hd]

/-- Wrapper of `createDateIntervals_countP_aux` at the canonical fuel. -/
theorem createDateIntervals_countP (s e days d : Nat) (h1 : s ≤ d) (h2 : d ≤ e) :
    (createDateIntervals s e days).countP
        (fun iv => decide (iv.1 ≤ d) && decide (d ≤ iv.2)) = 1 :=
  createDateIntervals_countP_aux e days (e + 1 - s) s (le_refl _) d h1 h2

/-- The last generated interval ends exactly at the requested end date. -/
theorem createDateIntervals_last_aux (e days : Nat) :
    ∀ n s, e + 1 - s ≤ n → s ≤ e →
      ∃ st, (createDateIntervals s e days).getLast? = some (st, e) := by
  intro n
  induction n with
  | zero => intro s hs hse; omega
  | succ n ih =>
    intro s hs hse
    rw [createDateIntervals_eq]
    simp only [hse, if_true]
    by_cases hme : min (s + (days - 1)) e = e
    · have hempty : createDateIntervals (min (s + (days - 1)) e + 1) e days = [] := by
        rw [createDateIntervals_eq]
        have : ¬ min (s + (days - 1)) e + 1 ≤ e := by omega
        simp [this]
      refine ⟨s, ?_⟩
      rw [hempty, hme]
      rfl
    · have hm1e : min (s + (days - 1)) e + 1 ≤ e := by omega
      obtain ⟨st, hst⟩ := ih (min (s + (days - 1)) e + 1) (by omega) hm1e
      refine ⟨st, ?_⟩
      rcases hc : createDateIntervals (min (s + (days - 1)) e + 1) e days with _ | ⟨a, l⟩
      · rw [hc] at hst
        simp at hst
      · rw [hc] at hst
        rw [List.getLast?_cons_cons]
        exact hst

/-- Folding `Nat.min` over a list never exceeds its initial value. -/
theorem foldl_min_le_init : ∀ (t : List Nat) (a : Nat), t.foldl Nat.min a ≤ a := by
  intro t
  induction t with
  | nil => intro a; simp
  | cons h tl ih =>
    intro a
    rw [List.foldl_cons]
    exact le_trans (ih _) (Nat.min_le_left _ _)

/-- Folding `Nat.min` over a list bounds every member from below. -/
theorem foldl_min_le_mem : ∀ (t : List Nat) (a x : Nat), x ∈ t → t.foldl Nat.min a ≤ x := by
  intro t
  induction t with
  | nil => intro a x hx; simp at hx
  | cons h tl ih =>
    intro a x hx
    rw [List.foldl_cons]
    rcases List.mem_cons.1 hx with rfl | hx
    · exact le_trans (foldl_min_le_init _ _) (Nat.min_le_right _ _)
    · exact ih _ x hx

/-- `listMin` bounds every member from below. -/
theorem listMin_le (l : List Nat) (x : Nat) (hx : x ∈ l) : listMin l ≤ x := by
  rcases l with _ | ⟨h, t⟩
  · simp at hx
  · unfold listMin
    rcases List.mem_cons.1 hx with rfl | hx
    · exact foldl_min_le_init _ _
    · exact foldl_min_le_mem _ _ _ hx

/-- Folding `Nat.max` over a list is at least its initial value. -/
theorem le_foldl_max_init : ∀ (t : List Nat) (a : Nat), a ≤ t.foldl Nat.max a := by
  intro t
  induction t with
  | nil => intro a; simp
  | cons h tl ih =>
    intro a
    rw [List.foldl_cons]
    exact le_trans (Nat.le_max_left _ _) (ih _)

/-- Folding `Nat.max` over a list bounds every member from above. -/
theorem le_foldl_max_mem : ∀ (t : List Nat) (a x : Nat), x ∈ t → x ≤ t.foldl Nat.max a := by
  intro t
  induction t with
  | nil => intro a x hx; simp at hx
  | cons h tl ih =>
    intro a x hx
    rw [List.foldl_cons]
    rcases List.mem_cons.1 hx with rfl | hx
    · exact le_trans (Nat.le_max_right _ _) (le_foldl_max_init _ _)
    · exact ih _ x hx

/-- `listMax` bounds every member from above. -/
theorem le_listMax (l : List Nat) (x : Nat) (hx : x ∈ l) : x ≤ listMax l := by
  rcases l with _ | ⟨h, t⟩
  · simp at hx
  · unfold listMax
    rcases List.mem_cons.1 hx with rfl | hx
    · exact le_foldl_max_init _ _
    · exact le_foldl_max_mem _ _ _ hx

/-- C2: the weekly interval labels generated by the aggregator from the
unfiltered epidemiology source partition the span from its global minimum
date to its global maximum date: every day of the span lies in exactly one
interval (no gaps, no overlaps), every interval is non-empty and spans at
most 7 days, and the final interval ends exactly at the global maximum
date. -/
theorem C2_weekly_intervals_partition (epidemiology_data : List EpiRow)
    (hne : epidemiology_data ≠ []) :
    (∀ d : Nat,
        listMin (epidemiology_data.map (·.date)) ≤ d →
        d ≤ listMax (epidemiology_data.map (·.date)) →
        (createDateIntervals (listMin (epidemiology_data.map (·.date)))
            (listMax (epidemiology_data.map (·.date))) 7).countP
            (fun iv => decide (iv.1 ≤ d) && decide (d ≤ iv.2)) = 1) ∧
    (∀ iv ∈ createDateIntervals (listMin (epidemiology_data.map (·.date)))
        (listMax (epidemiology_data.map (·.date))) 7,
        iv.1 ≤ iv.2 ∧ iv.2 + 1 ≤ iv.1 + 7) ∧
    (∃ st, (createDateIntervals (listMin (epidemiology_data.map (·.date)))
        (listMax (epidemiology_data.map (·.date))) 7).getLast?
          = some (st, listMax (epidemiology_data.map (·.date)))) := by
  rcases hl : epidemiology_data with _ | ⟨r, rest⟩
  · exact absurd hl hne
  have hmem : r.date ∈ (epidemiology_data.map (·.date)) := by
    rw [hl]; exact List.mem_map.2 ⟨r, List.mem_cons_self _ _, rfl⟩
  have hlohi : listMin (epidemiology_data.map (·.date))
      ≤ listMax (epidemiology_data.map (·.date)) :=
    le_trans (listMin_le _ _ hmem) (le_listMax _ _ hmem)
  rw [← hl]
  refine ⟨?_, ?_, ?_⟩
  · intro d h1 h2
    exact createDateIntervals_countP _ _ 7 d h1 h2
  · intro iv hiv
    have hb := createDateIntervals_bounds _ _ 7 iv hiv
    exact ⟨hb.2.1, by omega⟩
  · exact createDateIntervals_last_aux _ 7 _ _ (le_refl _) hlohi

/-- Witness for C2 on a one-row epidemiology table (min = max = day 3). -/
theorem C2_weekly_intervals_partition_witness :
    (∀ d : Nat,
        listMin (([⟨1, 3, none, none⟩] : List EpiRow).map (·.date)) ≤ d →
        d ≤ listMax (([⟨1, 3, none, none⟩] : List EpiRow).map (·.date)) →
        (createDateIntervals (listMin (([⟨1, 3, none, none⟩] : List EpiRow).map (·.date)))
            (listMax (([⟨1, 3, none, none⟩] : List EpiRow).map (·.date))) 7).countP
            (fun iv => decide (iv.1 ≤ d) && decide (d ≤ iv.2)) = 1) ∧
    (∀ iv ∈ createDateIntervals (listMin (([⟨1, 3, none, none⟩] : List EpiRow).map (·.date)))
        (listMax (([⟨1, 3, none, none⟩] : List EpiRow).map (·.date))) 7,
        iv.1 ≤ iv.2 ∧ iv.2 + 1 ≤ iv.1 + 7) ∧
    (∃ st, (createDateIntervals (listMin (([⟨1, 3, none, none⟩] : List EpiRow).map (·.date)))
        (listMax (([⟨1, 3, none, none⟩] : List EpiRow).map (·.date))) 7).getLast?
          = some (st, listMax (([⟨1, 3, none, none⟩] : List EpiRow).map (·.date)))) :=
  C2_weekly_intervals_partition [⟨1, 3, none, none⟩] (by simp)

/-- `groupCumsum` preserves the number of rows. -/
theorem groupCumsum_length : ∀ (l done : List MRow), (groupCumsum done l).length = l.length := by
  intro l
  induction l with
  | nil => intro done; rfl
  | cons r rs ih => intro done; simp [groupCumsum, ih]

/-- Row `i` of `groupCumsum done l` is row `i` of `l` with the two
cumulative cells set to the grouped sums over `done` and the first `i + 1`
rows of `l`. -/
theorem groupCumsum_getElem : ∀ (l done : List MRow) (i : Nat) (hi : i < l.length)
    (hi2 : i < (groupCumsum done l).length),
    (groupCumsum done l)[i] =
      { l[i] with
        cumulative_confirmed := cumAt (done ++ l.take i) l[i] (·.new_confirmed),
        cumulative_deceased := cumAt (done ++ l.take i) l[i] (·.new_deceased) } := by
  intro l
  induction l with
  | nil =>
    intro done i hi _
    exact absurd hi (by simp)
  | cons r rs ih =>
    intro done i hi hi2
    cases i with
    | zero =>
      simp [groupCumsum]
    | succ i =>
      have hi' : i < rs.length := by simpa using hi
      have hi2' : i < (groupCumsum (done ++ [r]) rs).length := by
        rw [groupCumsum_length]; exact hi'
      simp only [groupCumsum, List.getElem_cons_succ]
      rw [ih (done ++ [r]) i hi' hi2']
      simp [List.append_assoc, List.take_succ_cons]

/-- Rows of the flow-cleaning stage carry present non-negative flows. -/
theorem cleanFlowsStage_mem_nonneg (t : List MRow) (r : MRow) (hr : r ∈ cleanFlowsStage t) :
    (∃ c, r.new_confirmed = some c ∧ 0 ≤ c) ∧ (∃ d, r.new_deceased = some d ∧ 0 ≤ d) := by
  rcases List.mem_map.1 hr with ⟨x, _, rfl⟩
  exact ⟨⟨cleanValue x.new_confirmed, rfl, cleanValue_nonneg _⟩,
    ⟨cleanValue x.new_deceased, rfl, cleanValue_nonneg _⟩⟩


/-- The cumulative-sum stage leaves `location_key` unchanged. -/
theorem groupCumsum_getElem_loc (l done : List MRow) (i : Nat) (hi : i < l.length)
    (hi2 : i < (groupCumsum done l).length) :
    ((groupCumsum done l)[i]).location_key = (l[i]).location_key := by
  rw [groupCumsum_getElem l done i hi hi2]

/-- The cumulative-sum stage leaves `date` unchanged. -/
theorem groupCumsum_getElem_date (l done : List MRow) (i : Nat) (hi : i < l.length)
    (hi2 : i < (groupCumsum done l).length) :
    ((groupCumsum done l)[i]).date = (l[i]).date := by
  rw [groupCumsum_getElem l done i hi hi2]

/-- The `cumulative_confirmed` cell written by the cumulative-sum stage. -/
theorem groupCumsum_getElem_cc (l done : List MRow) (i : Nat) (hi : i < l.length)
    (hi2 : i < (groupCumsum done l).length) :
    ((groupCumsum done l)[i]).cumulative_confirmed
      = cumAt (done ++ l.take i) l[i] (·.new_confirmed) := by
  rw [groupCumsum_getElem l done i hi hi2]

/-- The `cumulative_deceased` cell written by the cumulative-sum stage. -/
theorem groupCumsum_getElem_cd (l done : List MRow) (i : Nat) (hi : i < l.length)
    (hi2 : i < (groupCumsum done l).length) :
    ((groupCumsum done l)[i]).cumulative_deceased
      = cumAt (done ++ l.take i) l[i] (·.new_deceased) := by
  rw [groupCumsum_getElem l done i hi hi2]

/-- The grouped sum over a longer prefix dominates the one over a shorter
prefix when every value of the column is present and non-negative. -/
theorem cumAt_take_mono (L : List MRow) (f : MRow → Option ℚ)
    (hf : ∀ r ∈ L, ∃ c, f r = some c ∧ 0 ≤ c)
    (i j : Nat) (hleni : i < L.length) (hlenj : j < L.length) (hij : i < j)
    (hlockey : (L[i]).location_key = (L[j]).location_key)
    (x y : ℚ) (hx : cumAt ([] ++ L.take i) L[i] f = some x)
    (hy : cumAt ([] ++ L.take j) L[j] f = some y) : x ≤ y := by
  unfold cumAt at hx hy
  rcases hf _ (List.getElem_mem hleni) with ⟨ci, hci, _⟩
  rcases hf _ (List.getElem_mem hlenj) with ⟨cj, hcj, _⟩
  rw [hci] at hx
  rw [hcj] at hy
  simp only [Option.map_some'] at hx hy
  have hxv := hx.symm
  have hyv := hy.symm
  have hwi : ([] : List MRow) ++ L.take i ++ [L[i]] = L.take (i + 1) := by
    rw [List.nil_append]
    exact List.take_concat_get' L i hleni
  have hwj : ([] : List MRow) ++ L.take j ++ [L[j]] = L.take (j + 1) := by
    rw [List.nil_append]
    exact List.take_concat_get' L j hlenj
  rw [hwi] at hxv
  rw [hwj] at hyv
  have hmin : min (i + 1) (j + 1) = i + 1 := Nat.min_eq_left (by omega)
  have hsplit : L.take (j + 1) = L.take (i + 1) ++ (L.take (j + 1)).drop (i + 1) := by
    conv_lhs => rw [← List.take_append_drop (i + 1) (L.take (j + 1))]
    rw [List.take_take, hmin]
  rw [hsplit, List.filter_append, List.filterMap_append, List.sum_append] at hyv
  have hkeyeq : (fun r : MRow => r.location_key == (L[j]).location_key)
      = (fun r : MRow => r.location_key == (L[i]).location_key) := by
    funext r
    rw [hlockey]
  rw [hkeyeq] at hyv
  have hrest : 0 ≤ (List.filterMap f
      (List.filter (fun r : MRow => r.location_key == (L[i]).location_key)
        ((L.take (j + 1)).drop (i + 1)))).sum := by
    apply List.sum_nonneg
    intro v hv
    rcases List.mem_filterMap.1 hv with ⟨r, hrmem, hrf⟩
    have hrL : r ∈ L := by
      have h1 : r ∈ (L.take (j + 1)).drop (i + 1) := List.mem_of_mem_filter hrmem
      have h2 : r ∈ L.take (j + 1) := (List.drop_sublist _ _).mem h1
      exact (List.take_sublist _ _).mem h2
    rcases hf r hrL with ⟨c, hc, hcpos⟩
    rw [hc] at hrf
    injection hrf with hrf
    rw [← hrf]
    exact hcpos
  have hx2 := Option.some.inj hxv
  have hy2 := Option.some.inj hyv
  rw [hx2, hy2]
  linarith

/-- C1: in the combined table produced by `combine_data`, rows of one
`location_key` appear in non-decreasing date order, and along that order
both derived cumulative columns are non-decreasing. -/
theorem C1_cumulatives_nondecreasing_per_location
    (demographics_data : List DemoRow) (epidemiology_data : List EpiRow)
    (health_data : List HealthRow) (hospitalizations_data : List HospRow)
    (index_data : List IndexRow) (vaccinations_data : List VaccRow) :
    List.Pairwise
      (fun a b => a.location_key = b.location_key →
        dateLeB a.date b.date = true ∧
        (∀ x y, a.cumulative_confirmed = some x → b.cumulative_confirmed = some y → x ≤ y) ∧
        (∀ x y, a.cumulative_deceased = some x → b.cumulative_deceased = some y → x ≤ y))
      (combineRows demographics_data epidemiology_data health_data hospitalizations_data
        index_data vaccinations_data) := by
  unfold combineRows dropIncompleteRows
  set L := cleanFlowsStage (sortRows (fillPopulationStage (fillMeansStage
      (mergeVacc
        (mergeIndex
          (mergeHosp
            (mergeHealth (mergeDemoEpi demographics_data epidemiology_data) health_data)
            hospitalizations_data)
          index_data)
        vaccinations_data)))) with hLdef
  have hsorted : List.Pairwise rowLe L := by
    rw [hLdef]
    unfold cleanFlowsStage
    rw [List.pairwise_map]
    have hs := List.sorted_insertionSort rowLe (fillPopulationStage (fillMeansStage
      (mergeVacc
        (mergeIndex
          (mergeHosp
            (mergeHealth (mergeDemoEpi demographics_data epidemiology_data) health_data)
            hospitalizations_data)
          index_data)
        vaccinations_data)))
    unfold sortRows
    exact hs.imp (fun hab => hab)
  have hflows : ∀ r ∈ L, (∃ c, r.new_confirmed = some c ∧ 0 ≤ c) ∧
      (∃ d, r.new_deceased = some d ∧ 0 ≤ d) := by
    intro r hr
    rw [hLdef] at hr
    exact cleanFlowsStage_mem_nonneg _ r hr
  have hmain : List.Pairwise
      (fun a b => a.location_key = b.location_key →
        dateLeB a.date b.date = true ∧
        (∀ x y, a.cumulative_confirmed = some x → b.cumulative_confirmed = some y → x ≤ y) ∧
        (∀ x y, a.cumulative_deceased = some x → b.cumulative_deceased = some y → x ≤ y))
      (cumsumStage L) := by
    unfold cumsumStage
    rw [List.pairwise_iff_getElem]
    intro i j hi hj hij
    have hleni : i < L.length := by
      have := groupCumsum_length L []
      omega
    have hlenj : j < L.length := by
      have := groupCumsum_length L []
      omega
    intro hloc
    have hlocL : (L[i]).location_key = (L[j]).location_key := by
      rw [← groupCumsum_getElem_loc L [] i hleni hi, ← groupCumsum_getElem_loc L [] j hlenj hj]
      exact hloc
    refine ⟨?_, ?_, ?_⟩
    · have hrow := (List.pairwise_iff_getElem.1 hsorted) i j hleni hlenj hij
      rcases hrow with hlt | ⟨heq, hdate⟩
      · exact absurd hlocL (by omega)
      · rw [groupCumsum_getElem_date L [] i hleni hi, groupCumsum_getElem_date L [] j hlenj hj]
        exact hdate
    · intro x y hx hy
      rw [groupCumsum_getElem_cc L [] i hleni hi] at hx
      rw [groupCumsum_getElem_cc L [] j hlenj hj] at hy
      exact cumAt_take_mono L (·.new_confirmed) (fun r hr => (hflows r hr).1)
        i j hleni hlenj hij hlocL x y hx hy
    · intro x y hx hy
      rw [groupCumsum_getElem_cd L [] i hleni hi] at hx
      rw [groupCumsum_getElem_cd L [] j hlenj hj] at hy
      exact cumAt_take_mono L (·.new_deceased) (fun r hr => (hflows r hr).2)
        i j hleni hlenj hij hlocL x y hx hy
  exact ((hmain.sublist (List.filter_sublist _)).sublist
    (List.filter_sublist _)).sublist (List.filter_sublist _)

/-- Dates of the first merge come from the epidemiology table (or are
missing for an unmatched demographics row). -/
theorem mergeDemoEpi_date (demographics_data : List DemoRow)
    (epidemiology_data : List EpiRow) :
    ∀ r ∈ mergeDemoEpi demographics_data epidemiology_data,
      r.date = none ∨ ∃ e ∈ epidemiology_data, r.date = some e.date := by
  intro r hr
  unfold mergeDemoEpi at hr
  rcases List.mem_flatMap.1 hr with ⟨d, _, hr2⟩
  by_cases hempty :
      (epidemiology_data.filter (fun e => e.location_key == d.location_key)).isEmpty
  · simp only [hempty, if_true, List.mem_singleton] at hr2
    subst hr2
    exact Or.inl rfl
  · simp only [hempty, Bool.false_eq_true, if_false, List.mem_map] at hr2
    rcases hr2 with ⟨e, he, rfl⟩
    exact Or.inr ⟨e, List.mem_of_mem_filter he, rfl⟩

/-- The health merge only copies existing rows. -/
theorem mergeHealth_mem (m : List MRow) (health_data : List HealthRow) :
    ∀ r ∈ mergeHealth m health_data, r ∈ m := by
  intro r hr
  unfold mergeHealth at hr
  rcases List.mem_flatMap.1 hr with ⟨x, hx, hr2⟩
  by_cases hempty : (health_data.filter (fun h => h.location_key == x.location_key)).isEmpty
  · simp only [hempty, if_true, List.mem_singleton] at hr2
    subst hr2
    exact hx
  · simp only [hempty, Bool.false_eq_true, if_false, List.mem_map] at hr2
    rcases hr2 with ⟨_, _, rfl⟩
    exact hx

/-- The hospitalizations merge only copies existing rows. -/
theorem mergeHosp_mem (m : List MRow) (hospitalizations_data : List HospRow) :
    ∀ r ∈ mergeHosp m hospitalizations_data, r ∈ m := by
  intro r hr
  unfold mergeHosp at hr
  rcases List.mem_flatMap.1 hr with ⟨x, hx, hr2⟩
  by_cases hempty : (hospitalizations_data.filter
      (fun h => h.location_key == x.location_key && x.date == some h.date)).isEmpty
  · simp only [hempty, if_true, List.mem_singleton] at hr2
    subst hr2
    exact hx
  · simp only [hempty, Bool.false_eq_true, if_false, List.mem_map] at hr2
    rcases hr2 with ⟨_, _, rfl⟩
    exact hx

/-- The index merge preserves every row's date. -/
theorem mergeIndex_date (m : List MRow) (index_data : List IndexRow) :
    ∀ r ∈ mergeIndex m index_data, ∃ x ∈ m, r.date = x.date := by
  intro r hr
  unfold mergeIndex at hr
  rcases List.mem_flatMap.1 hr with ⟨x, hx, hr2⟩
  by_cases hempty : (index_data.filter (fun i => i.location_key == x.location_key)).isEmpty
  · simp only [hempty, if_true, List.mem_singleton] at hr2
    subst hr2
    exact ⟨r, hx, rfl⟩
  · simp only [hempty, Bool.false_eq_true, if_false, List.mem_map] at hr2
    rcases hr2 with ⟨_, _, rfl⟩
    exact ⟨x, hx, rfl⟩

/-- The vaccinations merge only copies existing rows. -/
theorem mergeVacc_mem (m : List MRow) (vaccinations_data : List VaccRow) :
    ∀ r ∈ mergeVacc m vaccinations_data, r ∈ m := by
  intro r hr
  unfold mergeVacc at hr
  rcases List.mem_flatMap.1 hr with ⟨x, hx, hr2⟩
  by_cases hempty : (vaccinations_data.filter
      (fun v => v.location_key == x.location_key && x.date == some v.date)).isEmpty
  · simp only [hempty, if_true, List.mem_singleton] at hr2
    subst hr2
    exact hx
  · simp only [hempty, Bool.false_eq_true, if_false, List.mem_map] at hr2
    rcases hr2 with ⟨_, _, rfl⟩
    exact hx

/-- The imputation stages preserve every row's date. -/
theorem fillStages_date (t : List MRow) :
    ∀ r ∈ fillPopulationStage (fillMeansStage t), ∃ x ∈ t, r.date = x.date := by
  intro r hr
  unfold fillPopulationStage at hr
  rcases List.mem_map.1 hr with ⟨y, hy, rfl⟩
  unfold fillMeansStage at hy
  rcases List.mem_map.1 hy with ⟨x, hx, rfl⟩
  exact ⟨x, hx, rfl⟩

/-- The cumulative-sum stage preserves every row's date. -/
theorem groupCumsum_mem_date : ∀ (l done : List MRow) (r : MRow),
    r ∈ groupCumsum done l → ∃ x ∈ l, r.date = x.date := by
  intro l
  induction l with
  | nil => intro done r hr; simp [groupCumsum] at hr
  | cons a rs ih =>
    intro done r hr
    rw [groupCumsum, List.mem_cons] at hr
    rcases hr with rfl | hr
    · exact ⟨a, List.mem_cons_self _ _, rfl⟩
    · rcases ih (done ++ [a]) r hr with ⟨x, hx, hd⟩
      exact ⟨x, List.mem_cons_of_mem _ hx, hd⟩

/-- Every surviving row of `combine_data` has a present date equal to some
date of the epidemiology source. -/
theorem combineRows_mem_date (demographics_data : List DemoRow)
    (epidemiology_data : List EpiRow) (health_data : List HealthRow)
    (hospitalizations_data : List HospRow) (index_data : List IndexRow)
    (vaccinations_data : List VaccRow) :
    ∀ r ∈ combineRows demographics_data epidemiology_data health_data
        hospitalizations_data index_data vaccinations_data,
      ∃ dd, r.date = some dd ∧ ∃ e ∈ epidemiology_data, dd = e.date := by
  intro r hr
  unfold combineRows dropIncompleteRows at hr
  have hdatesome : r.date.isSome = true := by
    have h1 := List.mem_of_mem_filter hr
    exact (List.mem_filter.1 h1).2
  have hr2 : r ∈ cumsumStage (cleanFlowsStage (sortRows (fillPopulationStage (fillMeansStage
      (mergeVacc
        (mergeIndex
          (mergeHosp
            (mergeHealth (mergeDemoEpi demographics_data epidemiology_data) health_data)
            hospitalizations_data)
          index_data)
        vaccinations_data))))) := by
    have h1 := List.mem_of_mem_filter hr
    have h2 := List.mem_of_mem_filter h1
    exact List.mem_of_mem_filter h2
  unfold cumsumStage at hr2
  rcases groupCumsum_mem_date _ [] r hr2 with ⟨x1, hx1, hd1⟩
  rcases List.mem_map.1 hx1 with ⟨x2, hx2, rfl⟩
  unfold sortRows at hx2
  rw [List.mem_insertionSort] at hx2
  rcases fillStages_date _ _ hx2 with ⟨x3, hx3, hd3⟩
  have hx4 := mergeVacc_mem _ _ _ hx3
  rcases mergeIndex_date _ _ _ hx4 with ⟨x5, hx5, hd5⟩
  have hx6 := mergeHosp_mem _ _ _ hx5
  have hx7 := mergeHealth_mem _ _ _ hx6
  have hdate : r.date = x5.date := by
    rw [hd1]
    show x2.date = x5.date
    rw [hd3, hd5]
  rcases mergeDemoEpi_date _ _ _ hx7 with hnone | ⟨e, he, hde⟩
  · rw [hdate, hnone] at hdatesome
    simp at hdatesome
  · refine ⟨e.date, ?_, e, he, rfl⟩
    rw [hdate, hde]

/-- Rows of `refine_data` come from its input table. -/
theorem refineData_mem (t : List MRow) (start_period end_period : Nat)
    (country_list : Option (List Nat)) (r : MRow)
    (hr : r ∈ refineData t start_period end_period country_list) : r ∈ t := by
  unfold refineData at hr
  by_cases hc : countryFilterActive country_list = true
  · rw [hc] at hr
    simp only [if_true] at hr
    exact List.mem_of_mem_filter (List.mem_of_mem_filter hr)
  · simp only [Bool.not_eq_true] at hc
    rw [hc] at hr
    simp only [Bool.false_eq_true, if_false] at hr
    exact List.mem_of_mem_filter hr

/-- Labelling succeeds as soon as every row's lookup succeeds. -/
theorem labelRows_isSome (date_ranges : List (Nat × Nat)) :
    ∀ (mtable : List MRow),
      (∀ r ∈ mtable, (r.date.bind (lookupWeek date_ranges)).isSome = true) →
      (labelRows date_ranges mtable).isSome = true := by
  intro mtable
  induction mtable with
  | nil => intro _; rfl
  | cons r rs ih =>
    intro h
    have hr := h r (List.mem_cons_self _ _)
    rcases Option.isSome_iff_exists.1 hr with ⟨w, hw⟩
    have hrs := ih (fun x hx => h x (List.mem_cons_of_mem _ hx))
    rcases Option.isSome_iff_exists.1 hrs with ⟨ls, hls⟩
    unfold labelRows
    rw [hw, hls]
    rfl

/-- Any day within the generated span has a successful week lookup. -/
theorem lookupWeek_covers (s e days d : Nat) (h1 : s ≤ d) (h2 : d ≤ e) :
    (lookupWeek (createDateIntervals s e days) d).isSome = true := by
  unfold lookupWeek
  rw [List.find?_isSome]
  have hcount := createDateIntervals_countP s e days d h1 h2
  have hpos : 0 < (createDateIntervals s e days).countP
      (fun iv => decide (iv.1 ≤ d) && decide (d ≤ iv.2)) := by omega
  exact List.countP_pos_iff.1 hpos

/-- C6: for every row that survives combination and the date/country
filter, the week-label lookup of the aggregator succeeds, so the
`KeyError` branch of the labelling (the LookupGap failure mode) is
unreachable: `aggregate_data` applied to the pipeline's own refined
macrotable always produces a result. -/
theorem C6_week_lookup_never_fails (demographics_data : List DemoRow)
    (epidemiology_data : List EpiRow) (health_data : List HealthRow)
    (hospitalizations_data : List HospRow) (index_data : List IndexRow)
    (vaccinations_data : List VaccRow) (start_period end_period : Nat)
    (country_list : Option (List Nat)) :
    (aggregateData
        (refineData
          (combineRows demographics_data epidemiology_data health_data
            hospitalizations_data index_data vaccinations_data)
          start_period end_period country_list)
        epidemiology_data demographics_data index_data).isSome = true := by
  unfold aggregateData
  have hlab : (labelRows
      (createDateIntervals (listMin (epidemiology_data.map (·.date)))
        (listMax (epidemiology_data.map (·.date))) 7)
      (refineData
        (combineRows demographics_data epidemiology_data health_data
          hospitalizations_data index_data vaccinations_data)
        start_period end_period country_list)).isSome = true := by
    apply labelRows_isSome
    intro r hr
    have hrc := refineData_mem _ _ _ _ r hr
    rcases combineRows_mem_date demographics_data epidemiology_data health_data
      hospitalizations_data index_data vaccinations_data r hrc with ⟨dd, hdd, e, he, rfl⟩
    rw [hdd]
    have hmem : e.date ∈ epidemiology_data.map (·.date) :=
      List.mem_map.2 ⟨e, he, rfl⟩
    have hcov := lookupWeek_covers (listMin (epidemiology_data.map (·.date)))
      (listMax (epidemiology_data.map (·.date))) 7 e.date
      (listMin_le _ _ hmem) (le_listMax _ _ hmem)
    simpa using hcov
  rcases Option.isSome_iff_exists.1 hlab with ⟨ls, hls⟩
  dsimp only
  rw [hls]
  rfl

/-- Componentwise running totals of a list of (confirmed, deceased)
pairs: entry `k` is the sum of the first `k + 1` entries. -/
def runningTotals : List (ℚ × ℚ) → List (ℚ × ℚ)
  | [] => []
  | x :: xs => x :: (runningTotals xs).map (fun y => (x.1 + y.1, x.2 + y.2))

/-- Strict chronological order on week labels. -/
def weekLt (a b : Nat × Nat) : Prop := a.1 < b.1 ∨ (a.1 = b.1 ∧ a.2 < b.2)

/-- `runningTotals` preserves length. -/
theorem runningTotals_length : ∀ xs : List (ℚ × ℚ), (runningTotals xs).length = xs.length := by
  intro xs
  induction xs with
  | nil => rfl
  | cons x xs ih => simp [runningTotals, ih]

/-- Entry `k` of `runningTotals` is the componentwise sum of the first
`k + 1` entries. -/
theorem runningTotals_getElem : ∀ (xs : List (ℚ × ℚ)) (k : Nat)
    (hk : k < (runningTotals xs).length),
    (runningTotals xs)[k] =
      (((xs.take (k + 1)).map Prod.fst).sum, ((xs.take (k + 1)).map Prod.snd).sum) := by
  intro xs
  induction xs with
  | nil =>
    intro k hk
    rw [runningTotals] at hk
    exact absurd hk (by simp)
  | cons x xs ih =>
    intro k hk
    cases k with
    | zero => simp [runningTotals]
    | succ k =>
      have hk' : k < (runningTotals xs).length := by
        rw [runningTotals] at hk
        simpa using hk
      simp only [runningTotals, List.getElem_cons_succ, List.getElem_map, ih k hk',
        List.take_succ_cons, List.map_cons, List.sum_cons]

/-- `addCumLoop` does not change week, country or the summed flows of any
row. -/
theorem addCumLoop_proj : ∀ (l : List AggRow) (p : Option (Nat × ℚ × ℚ)),
    (addCumLoop p l).map (fun r => (r.week, r.country_name, r.new_confirmed, r.new_deceased))
      = l.map (fun r => (r.week, r.country_name, r.new_confirmed, r.new_deceased)) := by
  intro l
  induction l with
  | nil => intro p; rfl
  | cons r rs ih =>
    intro p
    simp only [addCumLoop, List.map_cons, ih]

/-- `addCumLoop` commutes with per-country filtering as far as week and
flows are concerned. -/
theorem addCumLoop_filter_proj : ∀ (l : List AggRow) (p : Option (Nat × ℚ × ℚ)) (c : Nat),
    ((addCumLoop p l).filter (fun r => r.country_name == c)).map
        (fun r => (r.week, r.new_confirmed, r.new_deceased))
      = (l.filter (fun r => r.country_name == c)).map
        (fun r => (r.week, r.new_confirmed, r.new_deceased)) := by
  intro l
  induction l with
  | nil => intro p c; rfl
  | cons r rs ih =>
    intro p c
    simp only [addCumLoop, List.filter_cons]
    by_cases hc : r.country_name == c
    · simp only [hc, if_true, List.map_cons, ih]
    · simp only [Bool.not_eq_true] at hc
      simp only [hc, Bool.false_eq_true, if_false, ih]

/-- Behaviour of the cumulative loop on a country-sorted tail, starting
from a carried state `(pc, a, b)`: the rows of the carried country extend
its running totals by `(a, b)`, and every other country's rows restart
from zero, exactly as the per-country prefix sums. -/
theorem addCumLoop_filter_some :
    ∀ (l : List AggRow) (pc : Nat) (a b : ℚ),
      List.Pairwise (fun x y => x.country_name ≤ y.country_name) l →
      (∀ r ∈ l, pc ≤ r.country_name) →
      ((((addCumLoop (some (pc, a, b)) l).filter (fun r => r.country_name == pc)).map
          (fun r => (r.cumulative_confirmed, r.cumulative_deceased)))
        = (runningTotals ((l.filter (fun r => r.country_name == pc)).map
            (fun r => (r.new_confirmed, r.new_deceased)))).map
            (fun y => (a + y.1, b + y.2))) ∧
      (∀ c, c ≠ pc →
        (((addCumLoop (some (pc, a, b)) l).filter (fun r => r.country_name == c)).map
            (fun r => (r.cumulative_confirmed, r.cumulative_deceased)))
          = runningTotals ((l.filter (fun r => r.country_name == c)).map
              (fun r => (r.new_confirmed, r.new_deceased)))) := by
  intro l
  induction l with
  | nil =>
    intro pc a b _ _
    constructor
    · simp [addCumLoop, runningTotals]
    · intro c _
      simp [addCumLoop, runningTotals]
  | cons r rs ih =>
    intro pc a b hpair hge
    obtain ⟨hr_rel, htail⟩ := List.pairwise_cons.1 hpair
    by_cases hc : r.country_name = pc
    · have hge' : ∀ x ∈ rs, pc ≤ x.country_name :=
        fun x hx => hge x (List.mem_cons_of_mem _ hx)
      have ih' := ih pc (a + r.new_confirmed) (b + r.new_deceased) htail hge'
      constructor
      · simp only [addCumLoop, hc, if_true, List.filter_cons, beq_self_eq_true,
          List.map_cons, List.filter_cons, List.map_cons]
        rw [ih'.1]
        simp only [runningTotals, List.map_cons, List.map_map]
        congr 1
        apply List.map_congr_left
        intro y _
        simp only [Function.comp_apply, add_assoc]
      · intro c hcne
        have hhead : ((pc : Nat) == c) = false := by
          simp [Ne.symm hcne]
        simp only [addCumLoop, hc, if_true, List.filter_cons, hhead, Bool.false_eq_true,
          if_false]
        exact ih'.2 c hcne
    · have hlt : pc < r.country_name :=
        lt_of_le_of_ne (hge r (List.mem_cons_self _ _)) (fun h => hc h.symm)
      have hge' : ∀ x ∈ rs, r.country_name ≤ x.country_name := hr_rel
      have ih' := ih r.country_name r.new_confirmed r.new_deceased htail hge'
      have hrsnone : ∀ x ∈ rs, ¬ (x.country_name == pc) = true := by
        intro x hx
        have := hr_rel x hx
        simp only [beq_iff_eq]
        omega
      constructor
      · have hheadpc : ((r.country_name : Nat) == pc) = false := by simp [hc]
        simp only [addCumLoop, hc, if_false, List.filter_cons, hheadpc, Bool.false_eq_true]
        have h1 : (rs.filter (fun x => x.country_name == pc)) = [] :=
          List.filter_eq_nil_iff.2 hrsnone
        have h2 := ih'.2 pc (by omega)
        rw [h1] at h2 ⊢
        simp only [List.map_nil, runningTotals, List.map_nil] at h2 ⊢
        exact h2
      · intro c hcne
        by_cases hcr : c = r.country_name
        · subst hcr
          simp only [addCumLoop, hc, if_false, List.filter_cons, beq_self_eq_true, if_true,
            List.map_cons]
          rw [ih'.1]
          simp only [runningTotals, List.map_cons]
        · have hne2 : r.country_name ≠ c := fun h => hcr (Eq.symm h)
          have hheadc : ((r.country_name : Nat) == c) = false := by
            simp [hne2]
          simp only [addCumLoop, hc, if_false, List.filter_cons, hheadc, Bool.false_eq_true]
          exact ih'.2 c hcr

/-- The cumulative loop started from no carried state computes, for every
country, exactly the running totals of that country's flow sums, provided
the rows are grouped by country (as the (country, week) sort guarantees). -/
theorem addCumLoop_none_filter (l : List AggRow)
    (hpair : List.Pairwise (fun x y => x.country_name ≤ y.country_name) l) (c : Nat) :
    ((addCumLoop none l).filter (fun r => r.country_name == c)).map
        (fun r => (r.cumulative_confirmed, r.cumulative_deceased))
      = runningTotals ((l.filter (fun r => r.country_name == c)).map
          (fun r => (r.new_confirmed, r.new_deceased))) := by
  cases l with
  | nil => simp [addCumLoop, runningTotals]
  | cons r rs =>
    obtain ⟨hr_rel, htail⟩ := List.pairwise_cons.1 hpair
    have ih' := addCumLoop_filter_some rs r.country_name r.new_confirmed r.new_deceased
      htail hr_rel
    by_cases hcr : c = r.country_name
    · subst hcr
      simp only [addCumLoop, List.filter_cons, beq_self_eq_true, if_true, List.map_cons]
      rw [ih'.1]
      simp only [runningTotals, List.map_cons]
    · have hne2 : r.country_name ≠ c := fun h => hcr (Eq.symm h)
      have hheadc : ((r.country_name : Nat) == c) = false := by simp [hne2]
      simp only [addCumLoop, List.filter_cons, hheadc, Bool.false_eq_true, if_false]
      exact ih'.2 c hcr

/-- The (country, week) sort yields country-monotone rows. -/
theorem sortAgg_pairwise_country (l : List AggRow) :
    List.Pairwise (fun x y => x.country_name ≤ y.country_name) (sortAgg l) := by
  have hs := List.sorted_insertionSort aggLe l
  unfold sortAgg
  refine hs.imp ?_
  intro a b hab
  rcases hab with h | ⟨h, _⟩
  · exact le_of_lt h
  · exact le_of_eq h

/-- The (country, week) sort is `aggLe`-sorted. -/
theorem sortAgg_pairwise (l : List AggRow) : List.Pairwise aggLe (sortAgg l) :=
  List.sorted_insertionSort aggLe l

/-- The (week, country) keys of the grouped table are distinct. -/
theorem groupAgg_keys_nodup (labeled : List LRow) :
    ((groupAgg labeled).map (fun r => (r.week, r.country_name))).Nodup := by
  unfold groupAgg
  rw [List.map_map]
  have hcomp : ((fun r : AggRow => (r.week, r.country_name)) ∘ (fun k : (Nat × Nat) × Nat =>
      ({ week := k.1, country_name := k.2,
         new_confirmed := ((labeled.filter
            (fun x => x.week == k.1 && x.country_name == some k.2)).filterMap
              (·.new_confirmed)).sum,
         new_deceased := ((labeled.filter
            (fun x => x.week == k.1 && x.country_name == some k.2)).filterMap
              (·.new_deceased)).sum } : AggRow))) = fun k => k := by
    funext k
    rfl
  rw [hcomp]
  have hd := List.nodup_dedup
    (labeled.filterMap (fun x => x.country_name.map (fun c => (x.week, c))))
  unfold groupKeys
  simpa using hd

/-- The keys of the sorted grouped table are still distinct. -/
theorem sortAgg_keys_nodup (labeled : List LRow) :
    ((sortAgg (groupAgg labeled)).map (fun r => (r.week, r.country_name))).Nodup := by
  have hperm := (List.perm_insertionSort aggLe (groupAgg labeled)).map
    (fun r : AggRow => (r.week, r.country_name))
  exact hperm.nodup_iff.2 (groupAgg_keys_nodup labeled)

/-- A weak week inequality together with distinctness is strict. -/
theorem weekLeB_ne_weekLt (w1 w2 : Nat × Nat) (hle : weekLeB w1 w2 = true) (hne : w1 ≠ w2) :
    weekLt w1 w2 := by
  rcases w1 with ⟨a1, a2⟩
  rcases w2 with ⟨b1, b2⟩
  unfold weekLeB at hle
  unfold weekLt
  simp only [Bool.or_eq_true, Bool.and_eq_true, decide_eq_true_eq] at hle
  simp only [ne_eq, Prod.mk.injEq, not_and] at hne
  simp only []
  omega

/-- Within a fixed country, the rows of the country/week-sorted grouped
table occur in strictly increasing week order. -/
theorem filtered_weekLt (labeled : List LRow) (c : Nat) :
    List.Pairwise (fun x y : AggRow => weekLt x.week y.week)
      ((sortAgg (groupAgg labeled)).filter (fun r => r.country_name == c)) := by
  have h1 : List.Pairwise aggLe
      ((sortAgg (groupAgg labeled)).filter (fun r => r.country_name == c)) :=
    (sortAgg_pairwise _).sublist (List.filter_sublist _)
  have hnodup : (((sortAgg (groupAgg labeled)).filter
      (fun r => r.country_name == c)).map (fun r => (r.week, r.country_name))).Nodup := by
    refine List.Nodup.sublist ?_ (sortAgg_keys_nodup labeled)
    exact (List.filter_sublist _).map _
  have h2 : List.Pairwise
      (fun x y : AggRow => (x.week, x.country_name) ≠ (y.week, y.country_name))
      ((sortAgg (groupAgg labeled)).filter (fun r => r.country_name == c)) := by
    rw [List.Nodup, List.pairwise_map] at hnodup
    exact hnodup
  have h3 := h1.and h2
  refine h3.imp_of_mem ?_
  intro a b ha hb hab
  have hca : a.country_name = c := by
    have := (List.mem_filter.1 ha).2
    simpa using this
  have hcb : b.country_name = c := by
    have := (List.mem_filter.1 hb).2
    simpa using this
  rcases hab.1 with h | ⟨_, hle⟩
  · omega
  · apply weekLeB_ne_weekLt _ _ hle
    intro hweq
    exact hab.2 (by rw [hweq, hca, hcb])

/-- Week projections of the per-country rows are unchanged by the
cumulative loop. -/
theorem addCumLoop_filter_weeks (l : List AggRow) (p : Option (Nat × ℚ × ℚ)) (c : Nat) :
    ((addCumLoop p l).filter (fun r => r.country_name == c)).map (fun r => r.week)
      = (l.filter (fun r => r.country_name == c)).map (fun r => r.week) := by
  have h := congrArg (List.map (fun t : (Nat × Nat) × ℚ × ℚ => t.1))
    (addCumLoop_filter_proj l p c)
  simpa [List.map_map, Function.comp] using h

/-- Flow projections of the per-country rows are unchanged by the
cumulative loop. -/
theorem addCumLoop_filter_flows (l : List AggRow) (p : Option (Nat × ℚ × ℚ)) (c : Nat) :
    ((addCumLoop p l).filter (fun r => r.country_name == c)).map
        (fun r => (r.new_confirmed, r.new_deceased))
      = (l.filter (fun r => r.country_name == c)).map
        (fun r => (r.new_confirmed, r.new_deceased)) := by
  have h := congrArg (List.map (fun t : (Nat × Nat) × ℚ × ℚ => t.2))
    (addCumLoop_filter_proj l p c)
  simpa [List.map_map, Function.comp] using h

instance : IsAntisymm AggRow2 (fun x y => weekLt x.week y.week) := by
  constructor
  intro a b h1 h2
  exfalso
  unfold weekLt at h1 h2
  omega

/-- Re-sorting by week does not change the subsequence of one country's
rows when their weeks are already strictly increasing. -/
theorem sortWeek_filter_eq (X : List AggRow2) (c : Nat)
    (hstrict : List.Pairwise (fun x y => weekLt x.week y.week)
      (X.filter (fun r => r.country_name == c))) :
    (sortWeek X).filter (fun r => r.country_name == c)
      = X.filter (fun r => r.country_name == c) := by
  have hperm : List.Perm ((sortWeek X).filter (fun r => r.country_name == c))
      (X.filter (fun r => r.country_name == c)) :=
    (List.perm_insertionSort weekRowLe X).filter _
  have hsorted1 : List.Pairwise weekRowLe ((sortWeek X).filter (fun r => r.country_name == c)) :=
    (List.sorted_insertionSort weekRowLe X).sublist (List.filter_sublist _)
  have hne : List.Pairwise (fun x y : AggRow2 => x.week ≠ y.week)
      ((sortWeek X).filter (fun r => r.country_name == c)) := by
    have hnodup2 : ((X.filter (fun r => r.country_name == c)).map (fun r => r.week)).Nodup := by
      rw [List.Nodup, List.pairwise_map]
      refine hstrict.imp ?_
      intro a b hab
      intro hweq
      unfold weekLt at hab
      rw [hweq] at hab
      omega
    have hnodup1 : (((sortWeek X).filter (fun r => r.country_name == c)).map
        (fun r => r.week)).Nodup := (hperm.map _).nodup_iff.2 hnodup2
    rw [List.Nodup, List.pairwise_map] at hnodup1
    exact hnodup1
  have hsorted1' : List.Pairwise (fun x y : AggRow2 => weekLt x.week y.week)
      ((sortWeek X).filter (fun r => r.country_name == c)) := by
    refine (hsorted1.and hne).imp ?_
    intro a b hab
    exact weekLeB_ne_weekLt _ _ hab.1 hab.2
  exact List.eq_of_perm_of_sorted hperm hsorted1' hstrict

/-- The population join changes none of the aggregation fields. -/
theorem joinPop_proj (pops : List PopRow) (r : AggRow2) :
    (joinPop pops r).week = r.week ∧ (joinPop pops r).country_name = r.country_name ∧
    (joinPop pops r).new_confirmed = r.new_confirmed ∧
    (joinPop pops r).new_deceased = r.new_deceased ∧
    (joinPop pops r).cumulative_confirmed = r.cumulative_confirmed ∧
    (joinPop pops r).cumulative_deceased = r.cumulative_deceased := by
  unfold joinPop
  cases pops.find? (fun p => p.country_name == r.country_name) <;>
    exact ⟨rfl, rfl, rfl, rfl, rfl, rfl⟩

/-- C3: in the aggregated weekly output, for every country the `k`-th week
row (in chronological week order, which is how the rows of one country
appear) has cumulative values equal to the sum of that country's weekly
flow sums up to and including week `k`; in particular the first week row
starts from that week's own sum, with no carry-in from the daily
cumulative columns. -/
theorem C3_weekly_cumulative_prefix_sums
    (mtable : List MRow) (epidemiology_data : List EpiRow)
    (demographics_data : List DemoRow) (index_data : List IndexRow) (c : Nat) (k : Nat)
    (hk : k < (((aggregateData mtable epidemiology_data demographics_data
        index_data).getD []).filter (fun r => r.country_name == c)).length) :
    ((((aggregateData mtable epidemiology_data demographics_data index_data).getD []).filter
        (fun r => r.country_name == c))[k]).cumulative_confirmed
      = (((((aggregateData mtable epidemiology_data demographics_data index_data).getD
          []).filter (fun r => r.country_name == c)).take (k + 1)).map
          (fun r => r.new_confirmed)).sum ∧
    ((((aggregateData mtable epidemiology_data demographics_data index_data).getD []).filter
        (fun r => r.country_name == c))[k]).cumulative_deceased
      = (((((aggregateData mtable epidemiology_data demographics_data index_data).getD
          []).filter (fun r => r.country_name == c)).take (k + 1)).map
          (fun r => r.new_deceased)).sum ∧
    List.Pairwise (fun a b => weekLt a.week b.week)
      (((aggregateData mtable epidemiology_data demographics_data index_data).getD []).filter
        (fun r => r.country_name == c)) := by
  suffices hgen : ∀ L : List OutRow,
      L = ((aggregateData mtable epidemiology_data demographics_data index_data).getD
        []).filter (fun r => r.country_name == c) →
      ∀ _ : k < L.length,
        (L[k]).cumulative_confirmed = ((L.take (k + 1)).map (fun r => r.new_confirmed)).sum ∧
        (L[k]).cumulative_deceased = ((L.take (k + 1)).map (fun r => r.new_deceased)).sum ∧
        List.Pairwise (fun a b => weekLt a.week b.week) L by
    exact hgen _ rfl hk
  intro L hL hk2
  cases hagg : aggregateData mtable epidemiology_data demographics_data index_data with
  | none =>
    rw [hagg] at hL
    simp only [Option.getD_none, List.filter_nil] at hL
    subst hL
    exact absurd hk2 (by simp)
  | some out =>
    rw [hagg] at hL
    simp only [Option.getD_some] at hL
    unfold aggregateData at hagg
    dsimp only at hagg
    cases hlab : labelRows (createDateIntervals (listMin (epidemiology_data.map (·.date)))
        (listMax (epidemiology_data.map (·.date))) 7) mtable with
    | none =>
      rw [hlab] at hagg
      exact absurd hagg (by simp)
    | some labeled =>
      rw [hlab] at hagg
      have hout : out = (sortWeek (addCumLoop none (sortAgg (groupAgg labeled)))).map
          (joinPop (popByCountry demographics_data index_data)) := (Option.some.inj hagg).symm
      subst hout
      set pops := popByCountry demographics_data index_data with hpops
      set G := sortAgg (groupAgg labeled) with hGdef
      set X := addCumLoop none G with hXdef
      have hXstrict : List.Pairwise (fun x y : AggRow2 => weekLt x.week y.week)
          (X.filter (fun r => r.country_name == c)) := by
        have hGstrict := filtered_weekLt labeled c
        rw [← hGdef] at hGstrict
        have h1 : List.Pairwise weekLt
            ((G.filter (fun r => r.country_name == c)).map (fun r => r.week)) :=
          List.pairwise_map.2 hGstrict
        have hweeks := addCumLoop_filter_weeks G none c
        rw [← hXdef] at hweeks
        rw [← hweeks] at h1
        exact List.pairwise_map.1 h1
      have hfilter_eq : ((sortWeek X).map (joinPop pops)).filter (fun r => r.country_name == c)
          = ((X.filter (fun r => r.country_name == c)).map (joinPop pops)) := by
        rw [List.filter_map]
        have hpred : ((fun r : OutRow => r.country_name == c) ∘ (joinPop pops))
            = (fun r : AggRow2 => r.country_name == c) := by
          funext r
          simp [Function.comp, (joinPop_proj pops r).2.1]
        rw [hpred, sortWeek_filter_eq X c hXstrict]
      rw [hfilter_eq] at hL
      subst hL
      set Y := X.filter (fun r => r.country_name == c) with hYdef
      have hk' : k < Y.length := by simpa using hk2
      have hcums : Y.map (fun r => (r.cumulative_confirmed, r.cumulative_deceased))
          = runningTotals (Y.map (fun r => (r.new_confirmed, r.new_deceased))) := by
        have h1 := addCumLoop_none_filter G (sortAgg_pairwise_country (groupAgg labeled)) c
        have h2 := addCumLoop_filter_flows G none c
        rw [← hXdef] at h1 h2
        rw [← hYdef] at h1 h2
        rw [← h2] at h1
        exact h1
      have hb1 : k < (Y.map (fun r => (r.cumulative_confirmed, r.cumulative_deceased))).length := by
        simpa using hk'
      have e1 : (Y.map (fun r => (r.cumulative_confirmed, r.cumulative_deceased)))[k]
          = ((Y[k]).cumulative_confirmed, (Y[k]).cumulative_deceased) := by
        rw [List.getElem_map]
      have hb2 : k < (runningTotals
          (Y.map (fun r => (r.new_confirmed, r.new_deceased)))).length := by
        rw [runningTotals_length]
        simpa using hk'
      have e2 := runningTotals_getElem (Y.map (fun r => (r.new_confirmed, r.new_deceased))) k hb2
      have e3 : (Y.map (fun r => (r.cumulative_confirmed, r.cumulative_deceased)))[k]
          = (runningTotals (Y.map (fun r => (r.new_confirmed, r.new_deceased))))[k] := by
        have h1 : (Y.map (fun r => (r.cumulative_confirmed, r.cumulative_deceased)))[k]?
            = (runningTotals (Y.map (fun r => (r.new_confirmed, r.new_deceased))))[k]? := by
          rw [hcums]
        rw [List.getElem?_eq_getElem hb1, List.getElem?_eq_getElem hb2] at h1
        exact Option.some.inj h1
      have e4 : ((Y[k]).cumulative_confirmed, (Y[k]).cumulative_deceased)
          = ((((Y.map (fun r => (r.new_confirmed, r.new_deceased))).take (k + 1)).map
              Prod.fst).sum,
             (((Y.map (fun r => (r.new_confirmed, r.new_deceased))).take (k + 1)).map
              Prod.snd).sum) := by
        rw [← e1, e3, e2]
      have hconv1 : ((Y.map (fun r => (r.new_confirmed, r.new_deceased))).take (k + 1)).map
          Prod.fst = (Y.take (k + 1)).map (fun r => r.new_confirmed) := by
        rw [← List.map_take, List.map_map]
        rfl
      have hconv2 : ((Y.map (fun r => (r.new_confirmed, r.new_deceased))).take (k + 1)).map
          Prod.snd = (Y.take (k + 1)).map (fun r => r.new_deceased) := by
        rw [← List.map_take, List.map_map]
        rfl
      rw [hconv1, hconv2] at e4
      have e5 := Prod.ext_iff.1 e4
      refine ⟨?_, ?_, ?_⟩
      · -- confirmed component
        have hg1 : ((Y.map (joinPop pops))[k]).cumulative_confirmed
            = (Y[k]).cumulative_confirmed := by
          have hgm : (Y.map (joinPop pops))[k] = joinPop pops (Y[k]) := by
            rw [List.getElem_map]
          rw [hgm]
          exact (joinPop_proj pops (Y[k])).2.2.2.2.1
        have hg2 : ((Y.map (joinPop pops)).take (k + 1)).map (fun r => r.new_confirmed)
            = (Y.take (k + 1)).map (fun r => r.new_confirmed) := by
          rw [← List.map_take, List.map_map]
          apply List.map_congr_left
          intro r _
          exact (joinPop_proj pops r).2.2.1
        rw [hg1, hg2]
        exact e5.1
      · have hg1 : ((Y.map (joinPop pops))[k]).cumulative_deceased
            = (Y[k]).cumulative_deceased := by
          have hgm : (Y.map (joinPop pops))[k] = joinPop pops (Y[k]) := by
            rw [List.getElem_map]
          rw [hgm]
          exact (joinPop_proj pops (Y[k])).2.2.2.2.2
        have hg2 : ((Y.map (joinPop pops)).take (k + 1)).map (fun r => r.new_deceased)
            = (Y.take (k + 1)).map (fun r => r.new_deceased) := by
          rw [← List.map_take, List.map_map]
          apply List.map_congr_left
          intro r _
          exact (joinPop_proj pops r).2.2.2.1
        rw [hg1, hg2]
        exact e5.2
      · have hw : (Y.map (joinPop pops)).map (fun r : OutRow => r.week)
            = Y.map (fun r => r.week) := by
          rw [List.map_map]
          apply List.map_congr_left
          intro r _
          exact (joinPop_proj pops r).1
        have h1 : List.Pairwise weekLt ((Y.map (joinPop pops)).map (fun r : OutRow => r.week)) := by
          rw [hw]
          exact List.pairwise_map.2 hXstrict
        exact List.pairwise_map.1 h1

/-- One-row macrotable used by the C3 witness: country 5, date 3, weekly
flows 1 and 2. -/
def w3mtable : List MRow :=
  [{ location_key := 1, date := some 3, new_confirmed := some 1, new_deceased := some 2,
     country_name := some 5 }]

/-- One-row epidemiology table used by the C3 witness (span = day 3). -/
def w3epi : List EpiRow := [⟨1, 3, none, none⟩]

/-- Witness for C3 at a concrete one-row pipeline run. -/
theorem C3_weekly_cumulative_prefix_sums_witness :
    ((((aggregateData w3mtable w3epi [] []).getD []).filter
        (fun r => r.country_name == 5)).get ⟨0, by decide⟩).cumulative_confirmed
      = (((((aggregateData w3mtable w3epi [] []).getD []).filter
          (fun r => r.country_name == 5)).take 1).map (fun r => r.new_confirmed)).sum ∧
    ((((aggregateData w3mtable w3epi [] []).getD []).filter
        (fun r => r.country_name == 5)).get ⟨0, by decide⟩).cumulative_deceased
      = (((((aggregateData w3mtable w3epi [] []).getD []).filter
          (fun r => r.country_name == 5)).take 1).map (fun r => r.new_deceased)).sum ∧
    List.Pairwise (fun a b => weekLt a.week b.week)
      (((aggregateData w3mtable w3epi [] []).getD []).filter
        (fun r => r.country_name == 5)) :=
  C3_weekly_cumulative_prefix_sums w3mtable w3epi [] [] 5 0 (by decide)
